import Mathlib

/-!
Shallow embedding of `src/model.py` (encoder-decoder transformer forward pass).

Modelling conventions, chosen once for the whole file:

* Tensors are nested lists of scalars drawn from a linear ordered field `α`
  (`T1`/`T2`/`T3`/`T4` below); a well-formedness predicate (`IsMat`, `IsT3S`,
  `IsT4S`) records the rectangular shape that torch tracks intrinsically.
* The analytic primitives of the substrate (`exp`, `sqrt`, `sin`, `cos`,
  `log`) are bundled in an `Ops α` record so that the model definitions stay
  computable; theorems about genuinely analytic facts instantiate `α := ℝ`
  with `realOps`.
* `nn.Dropout` in training mode multiplies each element by a random value
  (`0` or `1/(1-p)`); we abstract the random draw as an arbitrary per-index
  noise function `η` and a `training` flag.  In evaluation mode dropout is
  the identity, exactly as in torch.
* Random parameter initialisation (`xavier_uniform`) is abstracted as a
  generator function `g : Nat → Nat → α` supplying matrix entries; no claim
  depends on the initial values.
* A mask tensor is abstracted as an index predicate: `some m` where
  `m b h p q = true` means the mask value at that broadcast position is `0`
  (the masked-out / disallowed case tested by `mask == 0` in the source).
* Fallible tensor operations (the broadcast addition in
  `PositionalEncoding.forward`, the only substrate failure mode a claim is
  about, and the shape-checked constructions in `build_transformer`) return
  `Option`; the remaining layers are used only at shapes their theorems
  hypothesise to be well-formed.
-/

/-- Analytic scalar primitives of the tensor substrate. -/
structure Ops (α : Type) where
  exp : α → α
  sqrt : α → α
  sin : α → α
  cos : α → α
  log : α → α

noncomputable def realOps : Ops ℝ :=
  ⟨Real.exp, Real.sqrt, Real.sin, Real.cos, Real.log⟩

/-- Dummy instantiation used only to evaluate structural (shape/branching)
facts on concrete rational inputs. -/
def ratOps : Ops ℚ :=
  ⟨id, id, id, id, id⟩

abbrev T1 (α : Type) := List α
abbrev T2 (α : Type) := List (List α)
abbrev T3 (α : Type) := List (List (List α))
abbrev T4 (α : Type) := List (List (List (List α)))

/-- Per-index dropout noise for a 3-D tensor. -/
abbrev N3 (α : Type) := Nat → Nat → Nat → α

/-- Per-index dropout noise for a 4-D tensor. -/
abbrev N4 (α : Type) := Nat → Nat → Nat → Nat → α

section Model

variable {α : Type} [LinearOrderedField α]

/-- Rectangular matrix of `r` rows, `c` columns.  (`abbrev` so that the
decidability of concrete instances is found by unfolding.) -/
abbrev IsMat (m : T2 α) (r c : Nat) : Prop :=
  m.length = r ∧ ∀ row ∈ m, row.length = c

/-- 3-D tensor of shape `(b, s, d)`. -/
abbrev IsT3S (x : T3 α) (b s d : Nat) : Prop :=
  x.length = b ∧ ∀ m ∈ x, IsMat m s d

/-- 4-D tensor of shape `(b, h, s, d)`. -/
abbrev IsT4S (x : T4 α) (b h s d : Nat) : Prop :=
  x.length = b ∧ ∀ c ∈ x, IsT3S c h s d

/-- Token-index matrix of shape `(b, s)`. -/
abbrev IsTokMat (m : List (List Nat)) (b s : Nat) : Prop :=
  m.length = b ∧ ∀ row ∈ m, row.length = s

def dot (a b : T1 α) : α :=
  (List.zipWith (· * ·) a b).sum

def vAdd (a b : T1 α) : T1 α :=
  List.zipWith (· + ·) a b

def addT3 (x y : T3 α) : T3 α :=
  List.zipWith (fun xm ym => List.zipWith vAdd xm ym) x y

/-- Structured elementwise multiplication by the dropout noise:
`dropApply` is torch `nn.Dropout` on a 3-D tensor (identity when not
training, multiplication by the abstracted random mask when training). -/
def dropApply (training : Bool) (η : N3 α) (x : T3 α) : T3 α :=
  if training then
    x.mapIdx (fun i m => m.mapIdx (fun j r => r.mapIdx (fun k v => η i j k * v)))
  else x

/-- torch `nn.Dropout` on a 4-D tensor. -/
def dropApply4 (training : Bool) (η : N4 α) (x : T4 α) : T4 α :=
  if training then
    x.mapIdx (fun i c => c.mapIdx (fun j m => m.mapIdx (fun k r =>
      r.mapIdx (fun l v => η i j k l * v))))
  else x

/-- `nn.Linear(din, dout)`: a weight matrix (`dout × din`) and a bias. -/
structure LinearP (α : Type) where
  w : T2 α
  b : T1 α

def LinWF (l : LinearP α) (dout din : Nat) : Prop :=
  IsMat l.w dout din ∧ l.b.length = dout

/-- `nn.Linear` applied to the last-dimension vector `v`. -/
def linForward (l : LinearP α) (v : T1 α) : T1 α :=
  List.zipWith (fun wr bi => dot wr v + bi) l.w l.b

/-- `nn.Linear` mapped over the last dimension of a 3-D tensor. -/
def linT3 (l : LinearP α) (x : T3 α) : T3 α :=
  x.map (fun m => m.map (linForward l))

/-- `InputEmbedding.__init__`: vocabulary-indexed table of `d_model` rows. -/
structure InputEmbedding (α : Type) where
  d_model : Nat
  embedding : T2 α

/-- `InputEmbedding.forward`: look each token id up in the embedding table
and scale by `sqrt d_model` (`self.embedding(x) * math.sqrt(self.d_model)`). -/
def InputEmbedding.forward (ops : Ops α) (m : InputEmbedding α)
    (x : List (List Nat)) : T3 α :=
  x.map (fun row => row.map (fun tok =>
    (m.embedding.getD tok []).map (fun v => v * ops.sqrt (m.d_model : α))))

/-- `LayerNormalization.__init__`: epsilon and the two learned scalars. -/
structure LayerNormalization (α : Type) where
  eps : α
  alpha : α
  bias : α

/-- `x.mean(dim = -1)` on one last-dimension vector. -/
def meanL (v : T1 α) : α :=
  v.sum / (v.length : α)

/-- The unbiased sample variance used by `torch.std` (Bessel `n - 1`
denominator). -/
def varL (v : T1 α) : α :=
  ((v.map (fun xi => xi - meanL v)).map (fun d => d ^ 2)).sum / ((v.length : α) - 1)

/-- `x.std(dim = -1)` on one last-dimension vector. -/
def stdL (ops : Ops α) (v : T1 α) : α :=
  ops.sqrt (varL v)

/-- `LayerNormalization.forward` on one last-dimension vector:
`alpha * (x - mean) / (std + eps) + bias`. -/
def lnRow (ops : Ops α) (ln : LayerNormalization α) (v : T1 α) : T1 α :=
  v.map (fun xi => ln.alpha * (xi - meanL v) / (stdL ops v + ln.eps) + ln.bias)

/-- `LayerNormalization.forward` on a 3-D tensor (the mean/std reductions
keep every leading dimension). -/
def LayerNormalization.forward (ops : Ops α) (ln : LayerNormalization α)
    (x : T3 α) : T3 α :=
  x.map (fun m => m.map (lnRow ops ln))

/-- `LayerNormalization()` with the default `eps = 10**-6` and the initial
`alpha = 1`, `bias = 0`. -/
def mkLayerNorm : LayerNormalization α :=
  ⟨1 / 1000000, 1, 0⟩

/-- The `div_term` vector of `PositionalEncoding.__init__`:
`exp(arange(0, d_model, 2) * (-ln 10000 / d_model))`, of length
`⌈d_model / 2⌉`. -/
def divTerm (ops : Ops α) (d_model : Nat) : T1 α :=
  (List.range ((d_model + 1) / 2)).map (fun k =>
    ops.exp ((2 * k : Nat) * (-(ops.log 10000) / (d_model : α))))

/-- The value the `pe` buffer holds at `(pos, i)` after the two slice
assignments: even columns `sin(pos * div_term[i/2])`, odd columns
`cos(pos * div_term[i/2])`. -/
def peEntry (ops : Ops α) (d_model pos i : Nat) : α :=
  if i % 2 = 0 then ops.sin ((pos : α) * (divTerm ops d_model).getD (i / 2) 0)
  else ops.cos ((pos : α) * (divTerm ops d_model).getD (i / 2) 0)

/-- The `(seq_len, d_model)` table the `pe` buffer holds when construction
succeeds. -/
def peTable (ops : Ops α) (d_model seq_len : Nat) : T2 α :=
  (List.range seq_len).map (fun pos =>
    (List.range d_model).map (fun i => peEntry ops d_model pos i))

/-- `PositionalEncoding.__init__`.  The assignment
`pe[:, 1::2] = cos(position * div_term)` writes a value of
`⌈d_model / 2⌉` columns into `⌊d_model / 2⌋` odd columns; torch accepts
that copy only when the widths agree (even `d_model`) or the value is
broadcastable (width ≤ 1, i.e. `d_model ≤ 2`), and raises a shape
mismatch otherwise — so for odd `d_model ≥ 3` construction fails. -/
def peInit (ops : Ops α) (d_model seq_len : Nat) : Option (T2 α) :=
  if d_model % 2 = 0 ∨ d_model ≤ 2 then some (peTable ops d_model seq_len)
  else none

/-- `PositionalEncoding` module state: the precomputed `pe` buffer
(the stored batch dimension of size 1 is left implicit). -/
structure PositionalEncoding (α : Type) where
  pe : T2 α

/-- `x.shape[1]` of a 3-D tensor in list form (rows of the first batch
entry). -/
def seqOf (x : T3 α) : Nat :=
  (x.headD []).length

/-- Elementwise addition of two last-dimension vectors under torch
broadcasting: equal lengths add pointwise, a length-1 operand broadcasts,
anything else is a substrate error. -/
def addVecB (a b : T1 α) : Option (T1 α) :=
  if b.length = a.length then some (List.zipWith (· + ·) a b)
  else if b.length = 1 then some (a.map (fun v => v + b.getD 0 0))
  else if a.length = 1 then some (b.map (fun v => a.getD 0 0 + v))
  else none

def mapMOpt (f : β → Option γ) : List β → Option (List γ)
  | [] => some []
  | x :: xs =>
    match f x, mapMOpt f xs with
    | some y, some ys => some (y :: ys)
    | _, _ => none

/-- One batch entry of `x + pe_slice` under torch broadcasting of the
sequence dimension (`p` is the sliced table). -/
def addRowsB (xb p : T2 α) : Option (T2 α) :=
  if p.length = xb.length then
    mapMOpt (fun ab => addVecB ab.1 ab.2) (xb.zip p)
  else if p.length = 1 then
    mapMOpt (fun r => addVecB r (p.getD 0 [])) xb
  else if xb.length = 1 then
    mapMOpt (fun pr => addVecB (xb.getD 0 []) pr) p
  else none

/-- `x + self.pe[:, :x.shape[1], :]`: the table's batch dimension of 1
broadcasts over every batch entry; the sequence and feature dimensions
follow `addRowsB`/`addVecB`. -/
def addPeB (x : T3 α) (p : T2 α) : Option (T3 α) :=
  mapMOpt (fun xb => addRowsB xb p) x

/-- `PositionalEncoding.forward`: slice the table to the input's sequence
length, add (broadcasting), then dropout. -/
def PositionalEncoding.forward (m : PositionalEncoding α)
    (training : Bool) (η : N3 α) (x : T3 α) : Option (T3 α) :=
  (addPeB x (m.pe.take (seqOf x))).map (dropApply training η)

/-- `FeedForwardBlock.__init__`: the two linear layers (its dropout is the
noise argument of `forward`). -/
structure FeedForwardBlock (α : Type) where
  linear_1 : LinearP α
  linear_2 : LinearP α

def reluT3 (x : T3 α) : T3 α :=
  x.map (fun m => m.map (fun r => r.map (fun v => max v 0)))

/-- `FeedForwardBlock.forward`:
`linear_2(dropout(relu(linear_1(x))))`. -/
def FeedForwardBlock.forward (f : FeedForwardBlock α)
    (training : Bool) (η : N3 α) (x : T3 α) : T3 α :=
  linT3 f.linear_2 (dropApply training η (reluT3 (linT3 f.linear_1 x)))

/-- `MultiHeadAttentionBlock` module state.  `attention_scores` is the
attribute `forward` assigns on every call (`self.attention_scores = ...`);
the dropout submodule's rate is absorbed into the noise argument of
`forward`. -/
structure MultiHeadAttentionBlock (α : Type) where
  d_model : Nat
  h : Nat
  w_q : LinearP α
  w_k : LinearP α
  w_v : LinearP α
  w_o : LinearP α
  attention_scores : Option (T4 α) := none

/-- `query.shape[-1]` of the 4-D query tensor. -/
def lastDim4 (x : T4 α) : Nat :=
  (((x.headD []).headD []).headD []).length

/-- `(query @ key.transpose(-2, -1)) / sqrt(d_k)` for one `(batch, head)`
pair of matrices. -/
def matScores (ops : Ops α) (dk : Nat) (q k : T2 α) : T2 α :=
  q.map (fun qr => k.map (fun kr => dot qr kr / ops.sqrt (dk : α)))

/-- `softmax(dim = -1)` on one row. -/
def softmaxRow (ops : Ops α) (v : T1 α) : T1 α :=
  (v.map ops.exp).map (fun e => e / (v.map ops.exp).sum)

/-- `masked_fill_(mask == 0, -1e9)`; the mask is abstracted as the index
predicate "the mask value at this broadcast position is zero". -/
def maskFill (mask : N4 Bool) (s : T4 α) : T4 α :=
  s.mapIdx (fun b c => c.mapIdx (fun h m => m.mapIdx (fun p r =>
    r.mapIdx (fun q v => if mask b h p q then -(1000000000 : α) else v))))

def subT4 (x y : T4 α) : T4 α :=
  List.zipWith (List.zipWith (List.zipWith (List.zipWith (· - ·)))) x y

/-- `attention_scores @ value` for one `(batch, head)` pair:
row `p` of the result is the score-weighted sum of the rows of `value`. -/
def vecMatMul (w : T1 α) (v : T2 α) : T1 α :=
  (List.zipWith (fun wi r => r.map (fun x => wi * x)) w v).foldr vAdd
    (List.replicate (v.headD []).length 0)

def matApply (s v : T2 α) : T2 α :=
  s.map (fun sr => vecMatMul sr v)

/-- `MultiHeadAttentionBlock.attention` (the static method).  Note the
source line `attention_scores - dropout(attention_scores)`: the expression
is computed but never assigned, so it is bound to a discarded local here
and the raw softmax scores are the ones multiplied with `value` and
returned. -/
def MultiHeadAttentionBlock.attention (ops : Ops α) (query key value : T4 α)
    (mask : Option (N4 Bool)) (dropout : Option (T4 α → T4 α)) : T4 α × T4 α :=
  let d_k := lastDim4 query
  let raw : T4 α :=
    List.zipWith (fun qb kb =>
      List.zipWith (fun qh kh => matScores ops d_k qh kh) qb kb) query key
  let masked : T4 α :=
    match mask with
    | none => raw
    | some m => maskFill m raw
  let scores : T4 α := masked.map (fun c => c.map (fun m => m.map (softmaxRow ops)))
  let _discarded : Option (T4 α) :=
    dropout.map (fun f => subT4 scores (f scores))
  (List.zipWith (fun sb vb => List.zipWith matApply sb vb) scores value, scores)

/-- The `view(b, -1, h, d_k).transpose(1, 2)` reshape: position `p` of the
input contributes chunk `i` of width `d_k` to head `i`. -/
def splitHeads (h d_k : Nat) (x : T3 α) : T4 α :=
  x.map (fun xb => (List.range h).map (fun i =>
    xb.map (fun r => (r.drop (i * d_k)).take d_k)))

/-- The `transpose(1, 2).contiguous().view(b, -1, h * d_k)` reshape:
position `p` of the output concatenates row `p` of every head. -/
def concatHeads (x : T4 α) : T3 α :=
  x.map (fun xb => (List.range (xb.headD []).length).map (fun p =>
    (xb.map (fun hd => hd.getD p [])).flatten))

/-- `MultiHeadAttentionBlock.forward`.  It returns the output tensor
together with the module state after the call: the assignment
`x, self.attention_scores = ...attention(...)` stores the softmax scores
on the module. -/
def MultiHeadAttentionBlock.forward (ops : Ops α)
    (m : MultiHeadAttentionBlock α) (training : Bool) (η : N4 α)
    (q k v : T3 α) (mask : Option (N4 Bool)) :
    T3 α × MultiHeadAttentionBlock α :=
  let d_k := m.d_model / m.h
  let query := splitHeads m.h d_k (linT3 m.w_q q)
  let key := splitHeads m.h d_k (linT3 m.w_k k)
  let value := splitHeads m.h d_k (linT3 m.w_v v)
  let r := MultiHeadAttentionBlock.attention ops query key value mask
    (some (dropApply4 training η))
  (linT3 m.w_o (concatHeads r.1), { m with attention_scores := some r.2 })

/-- `ResidualConnection` module state: its private `LayerNormalization`
(the dropout rate is absorbed into the noise argument of `forward`). -/
structure ResidualConnection (α : Type) where
  norm : LayerNormalization α

/-- `ResidualConnection.forward` for a pure sublayer:
`x + self.dropout(sublayer(self.norm(x)))`. -/
def ResidualConnection.forward (ops : Ops α) (rc : ResidualConnection α)
    (training : Bool) (η : N3 α) (x : T3 α) (sublayer : T3 α → T3 α) : T3 α :=
  addT3 x (dropApply training η (sublayer (LayerNormalization.forward ops rc.norm x)))

/-- `ResidualConnection.forward` for a sublayer that also returns updated
module state (the attention sublayers write `attention_scores`). -/
def ResidualConnection.forwardS {σ : Type} (ops : Ops α)
    (rc : ResidualConnection α) (training : Bool) (η : N3 α) (x : T3 α)
    (sublayer : T3 α → T3 α × σ) : T3 α × σ :=
  let r := sublayer (LayerNormalization.forward ops rc.norm x)
  (addT3 x (dropApply training η r.1), r.2)

/-- The dropout noise consumed by one `EncoderBlock` call: the attention's
internal (discarded) dropout, the two residual dropouts, and the
feed-forward's internal dropout. -/
structure BlockNoise (α : Type) where
  attn : N4 α
  res0 : N3 α
  ffn : N3 α
  res1 : N3 α

/-- `EncoderBlock` module state; `residual_connections` is the source's
`ModuleList` of two `ResidualConnection`s. -/
structure EncoderBlock (α : Type) where
  self_attention_block : MultiHeadAttentionBlock α
  feed_forward_block : FeedForwardBlock α
  res0 : ResidualConnection α
  res1 : ResidualConnection α

/-- `EncoderBlock.forward`: self-attention residual sublayer, then
feed-forward residual sublayer; the attention sublayer's state write is
threaded out. -/
def EncoderBlock.forward (ops : Ops α) (blk : EncoderBlock α)
    (training : Bool) (η : BlockNoise α) (x : T3 α) (src_mask : Option (N4 Bool)) :
    T3 α × EncoderBlock α :=
  let r0 := ResidualConnection.forwardS ops blk.res0 training η.res0 x
    (fun y => MultiHeadAttentionBlock.forward ops blk.self_attention_block
      training η.attn y y y src_mask)
  let x1 := r0.1
  let x2 := ResidualConnection.forward ops blk.res1 training η.res1 x1
    (fun y => FeedForwardBlock.forward blk.feed_forward_block training η.ffn y)
  (x2, { blk with self_attention_block := r0.2 })

/-- `Encoder` module state. -/
structure Encoder (α : Type) where
  layers : List (EncoderBlock α)
  norm : LayerNormalization α

def encLayersForward (ops : Ops α) (training : Bool) (ηs : Nat → BlockNoise α)
    (mask : Option (N4 Bool)) :
    List (EncoderBlock α) → Nat → T3 α → T3 α × List (EncoderBlock α)
  | [], _, x => (x, [])
  | blk :: blks, i, x =>
    let r := EncoderBlock.forward ops blk training (ηs i) x mask
    let rest := encLayersForward ops training ηs mask blks (i + 1) r.1
    (rest.1, r.2 :: rest.2)

/-- `Encoder.forward`: fold the layers, then the final normalization. -/
def Encoder.forward (ops : Ops α) (e : Encoder α) (training : Bool)
    (ηs : Nat → BlockNoise α) (x : T3 α) (mask : Option (N4 Bool)) :
    T3 α × Encoder α :=
  let r := encLayersForward ops training ηs mask e.layers 0 x
  (LayerNormalization.forward ops e.norm r.1, { e with layers := r.2 })

/-- The dropout noise consumed by one `DecoderBlock` call. -/
structure DecBlockNoise (α : Type) where
  self_attn : N4 α
  cross_attn : N4 α
  res0 : N3 α
  res1 : N3 α
  ffn : N3 α
  res2 : N3 α

/-- `DecoderBlock` module state; `residual_connection` is the source's
`ModuleList` of three `ResidualConnection`s. -/
structure DecoderBlock (α : Type) where
  self_attention_block : MultiHeadAttentionBlock α
  cross_attention_block : MultiHeadAttentionBlock α
  feed_forward_block : FeedForwardBlock α
  res0 : ResidualConnection α
  res1 : ResidualConnection α
  res2 : ResidualConnection α

/-- `DecoderBlock.forward`: masked self-attention, cross-attention against
the encoder output, feed-forward, each wrapped residually. -/
def DecoderBlock.forward (ops : Ops α) (blk : DecoderBlock α)
    (training : Bool) (η : DecBlockNoise α) (x encoder_output : T3 α)
    (src_mask tgt_mask : Option (N4 Bool)) : T3 α × DecoderBlock α :=
  let r0 := ResidualConnection.forwardS ops blk.res0 training η.res0 x
    (fun y => MultiHeadAttentionBlock.forward ops blk.self_attention_block
      training η.self_attn y y y tgt_mask)
  let r1 := ResidualConnection.forwardS ops blk.res1 training η.res1 r0.1
    (fun y => MultiHeadAttentionBlock.forward ops blk.cross_attention_block
      training η.cross_attn y encoder_output encoder_output src_mask)
  let x2 := ResidualConnection.forward ops blk.res2 training η.res2 r1.1
    (fun y => FeedForwardBlock.forward blk.feed_forward_block training η.ffn y)
  (x2, { blk with self_attention_block := r0.2, cross_attention_block := r1.2 })

/-- `Decoder` module state. -/
structure Decoder (α : Type) where
  layers : List (DecoderBlock α)
  norm : LayerNormalization α

def decLayersForward (ops : Ops α) (training : Bool)
    (ηs : Nat → DecBlockNoise α) (encoder_output : T3 α)
    (src_mask tgt_mask : Option (N4 Bool)) :
    List (DecoderBlock α) → Nat → T3 α → T3 α × List (DecoderBlock α)
  | [], _, x => (x, [])
  | blk :: blks, i, x =>
    let r := DecoderBlock.forward ops blk training (ηs i) x encoder_output
      src_mask tgt_mask
    let rest := decLayersForward ops training ηs encoder_output src_mask
      tgt_mask blks (i + 1) r.1
    (rest.1, r.2 :: rest.2)

/-- `Decoder.forward`. -/
def Decoder.forward (ops : Ops α) (d : Decoder α) (training : Bool)
    (ηs : Nat → DecBlockNoise α) (x encoder_output : T3 α)
    (src_mask tgt_mask : Option (N4 Bool)) : T3 α × Decoder α :=
  let r := decLayersForward ops training ηs encoder_output src_mask tgt_mask
    d.layers 0 x
  (LayerNormalization.forward ops d.norm r.1, { d with layers := r.2 })

/-- `ProjectionLayer` module state. -/
structure ProjectionLayer (α : Type) where
  proj : LinearP α

/-- `torch.log_softmax(z, dim = -1)` on one vocabulary row:
`z_i - log (Σ_j exp z_j)`. -/
def logSoftmaxRow (ops : Ops α) (v : T1 α) : T1 α :=
  v.map (fun z => z - ops.log ((v.map ops.exp).sum))

/-- `ProjectionLayer.forward`: `log_softmax(self.proj(x), dim = -1)`. -/
def ProjectionLayer.forward (ops : Ops α) (l : ProjectionLayer α)
    (x : T3 α) : T3 α :=
  (linT3 l.proj x).map (fun m => m.map (logSoftmaxRow ops))

/-- `Transformer` module state. -/
structure Transformer (α : Type) where
  encoder : Encoder α
  decoder : Decoder α
  src_embed : InputEmbedding α
  tgt_embed : InputEmbedding α
  src_pos : PositionalEncoding α
  tgt_pos : PositionalEncoding α
  projection_layer : ProjectionLayer α

/-- `Transformer.encode`: embed, add positional encoding (the one fallible
substrate operation), run the encoder; the result is the returned tensor
(the attention-score state writes happen inside, see
`MultiHeadAttentionBlock.forward`). -/
def Transformer.encode (ops : Ops α) (t : Transformer α) (training : Bool)
    (ηpos : N3 α) (ηs : Nat → BlockNoise α) (src : List (List Nat))
    (src_mask : Option (N4 Bool)) : Option (T3 α) :=
  (PositionalEncoding.forward t.src_pos training ηpos
      (InputEmbedding.forward ops t.src_embed src)).map
    (fun y => (Encoder.forward ops t.encoder training ηs y src_mask).1)

/-- `Transformer.decode`. -/
def Transformer.decode (ops : Ops α) (t : Transformer α) (training : Bool)
    (ηpos : N3 α) (ηs : Nat → DecBlockNoise α) (encoder_output : T3 α)
    (src_mask : Option (N4 Bool)) (tgt : List (List Nat))
    (tgt_mask : Option (N4 Bool)) : Option (T3 α) :=
  (PositionalEncoding.forward t.tgt_pos training ηpos
      (InputEmbedding.forward ops t.tgt_embed tgt)).map
    (fun y => (Decoder.forward ops t.decoder training ηs y encoder_output
      src_mask tgt_mask).1)

/-- `Transformer.project`. -/
def Transformer.project (ops : Ops α) (t : Transformer α) (x : T3 α) : T3 α :=
  ProjectionLayer.forward ops t.projection_layer x

/-- An `r × c` matrix filled from the abstract initialisation generator. -/
def mkMat (g : Nat → Nat → α) (r c : Nat) : T2 α :=
  (List.range r).map (fun i => (List.range c).map (fun j => g i j))

/-- An `nn.Linear(din, dout)` with generator-supplied parameters. -/
def mkLin (g : Nat → Nat → α) (dout din : Nat) : LinearP α :=
  ⟨mkMat g dout din, (List.range dout).map (fun i => g i din)⟩

/-- `MultiHeadAttentionBlock(d_model, h, dropout)`: the construction
asserts `d_model % h == 0` (and `d_model % h` itself raises for `h = 0`). -/
def mkMultiHeadAttentionBlock (g : Nat → Nat → α) (d_model h : Nat) :
    Option (MultiHeadAttentionBlock α) :=
  if 0 < h ∧ d_model % h = 0 then
    some ⟨d_model, h, mkLin g d_model d_model, mkLin g d_model d_model,
      mkLin g d_model d_model, mkLin g d_model d_model, none⟩
  else none

def mkFeedForwardBlock (g : Nat → Nat → α) (d_model d_ff : Nat) :
    FeedForwardBlock α :=
  ⟨mkLin g d_ff d_model, mkLin g d_model d_ff⟩

def mkEncoderBlock (g : Nat → Nat → α) (d_model h d_ff : Nat) :
    Option (EncoderBlock α) :=
  (mkMultiHeadAttentionBlock g d_model h).map (fun a =>
    ⟨a, mkFeedForwardBlock g d_model d_ff, ⟨mkLayerNorm⟩, ⟨mkLayerNorm⟩⟩)

def mkDecoderBlock (g : Nat → Nat → α) (d_model h d_ff : Nat) :
    Option (DecoderBlock α) :=
  (mkMultiHeadAttentionBlock g d_model h).bind (fun a =>
    (mkMultiHeadAttentionBlock g d_model h).map (fun c =>
      ⟨a, c, mkFeedForwardBlock g d_model d_ff, ⟨mkLayerNorm⟩, ⟨mkLayerNorm⟩,
        ⟨mkLayerNorm⟩⟩))

/-- `build_transformer`.  Construction order follows the source: the
embeddings always succeed, the two positional encodings can fail on the
odd-`d_model` slice assignment, then the attention blocks assert the
divisibility.  `xavier_uniform` initialisation is abstracted by `g`. -/
def build_transformer (ops : Ops α) (g : Nat → Nat → α)
    (src_vocab_size tgt_vocab_size src_seq_len tgt_seq_len : Nat)
    (d_model : Nat := 512) (N : Nat := 6) (h : Nat := 8)
    (d_ff : Nat := 2048) : Option (Transformer α) :=
  let src_embed : InputEmbedding α := ⟨d_model, mkMat g src_vocab_size d_model⟩
  let tgt_embed : InputEmbedding α := ⟨d_model, mkMat g tgt_vocab_size d_model⟩
  (peInit ops d_model src_seq_len).bind (fun peS =>
    (peInit ops d_model tgt_seq_len).bind (fun peT =>
      (mapMOpt (fun _ => mkEncoderBlock g d_model h d_ff) (List.range N)).bind
        (fun encoder_blocks =>
          (mapMOpt (fun _ => mkDecoderBlock g d_model h d_ff)
              (List.range N)).map (fun decoder_blocks =>
            { encoder := ⟨encoder_blocks, mkLayerNorm⟩
              decoder := ⟨decoder_blocks, mkLayerNorm⟩
              src_embed := src_embed
              tgt_embed := tgt_embed
              src_pos := ⟨peS⟩
              tgt_pos := ⟨peT⟩
              projection_layer := ⟨mkLin g tgt_vocab_size d_model⟩ }))))

/-- Entry `(i, j, k)` of a 3-D tensor (with junk defaults out of range). -/
def get3 (x : T3 α) (i j k : Nat) : α :=
  ((x.getD i []).getD j []).getD k 0

/-- Well-formed attention block over feature dimension `d`: as torch sets
it up, `d_model = d`, at least one head, `h * d_k = d_model`, and all four
projections are `d × d` linears. -/
def MhaWF (m : MultiHeadAttentionBlock α) (d : Nat) : Prop :=
  m.d_model = d ∧ 0 < m.h ∧ m.h * (d / m.h) = d ∧
    LinWF m.w_q d d ∧ LinWF m.w_k d d ∧ LinWF m.w_v d d ∧ LinWF m.w_o d d

/-- Well-formed feed-forward block (`d → d_ff → d`). -/
def FfnWF (f : FeedForwardBlock α) (d dff : Nat) : Prop :=
  LinWF f.linear_1 dff d ∧ LinWF f.linear_2 d dff

def EncBlockWF (blk : EncoderBlock α) (d dff : Nat) : Prop :=
  MhaWF blk.self_attention_block d ∧ FfnWF blk.feed_forward_block d dff

def EncoderWF (e : Encoder α) (d dff : Nat) : Prop :=
  ∀ blk ∈ e.layers, EncBlockWF blk d dff

end Model

section Lemmas

variable {α : Type} [LinearOrderedField α]

theorem mapMOpt_isSome_iff (f : β → Option γ) (l : List β) :
    (mapMOpt f l).isSome ↔ ∀ a ∈ l, (f a).isSome := by
  induction l with
  | nil => simp [mapMOpt]
  | cons x xs ih =>
    simp only [mapMOpt, List.mem_cons]
    cases hx : f x <;> cases hxs : mapMOpt f xs <;>
      simp_all [Option.isSome]

theorem mapMOpt_const_some (c : γ) (l : List β) :
    mapMOpt (fun _ => some c) l = some (l.map (fun _ => c)) := by
  induction l with
  | nil => rfl
  | cons x xs ih => simp [mapMOpt, ih]

theorem mapMOpt_const_none (l : List β) (hl : l ≠ []) :
    mapMOpt (fun _ => (none : Option γ)) l = none := by
  cases l with
  | nil => exact absurd rfl hl
  | cons x xs => rfl

theorem mapMOpt_eq_some_iff (f : β → Option γ) (l : List β) (r : List γ) :
    mapMOpt f l = some r ↔
      r.length = l.length ∧ ∀ i : Nat, ∀ hi : i < l.length,
        ∀ hr : i < r.length, f (l.get ⟨i, hi⟩) = some (r.get ⟨i, hr⟩) := by
  induction l generalizing r with
  | nil =>
    constructor
    · intro h
      cases r with
      | nil => simp
      | cons y ys => simp [mapMOpt] at h
    · intro h
      have : r = [] := List.eq_nil_of_length_eq_zero h.1
      simp [this, mapMOpt]
  | cons x xs ih =>
    constructor
    · intro h
      simp only [mapMOpt] at h
      cases hx : f x with
      | none => rw [hx] at h; exact absurd h (by simp)
      | some y =>
        rw [hx] at h
        cases hxs : mapMOpt f xs with
        | none => rw [hxs] at h; exact absurd h (by simp)
        | some ys =>
          rw [hxs] at h
          have hr : r = y :: ys := by
            simpa using h.symm
          subst hr
          have hlen := ((ih ys).mp hxs).1
          refine ⟨by simpa using hlen, ?_⟩
          intro i hi hri
          cases i with
          | zero => simpa using hx
          | succ n =>
            have := ((ih ys).mp hxs).2 n (by simpa using hi) (by simpa using hri)
            simpa using this
    · intro h
      cases r with
      | nil => simp at h
      | cons y ys =>
        have hx : f x = some y := by
          have := h.2 0 (by simp) (by simp)
          simpa using this
        have hxs : mapMOpt f xs = some ys := by
          refine (ih ys).mpr ⟨by simpa using h.1, ?_⟩
          intro i hi hri
          have := h.2 (i + 1) (by simpa using hi) (by simpa using hri)
          simpa using this
        simp [mapMOpt, hx, hxs]

end Lemmas

section ClaimC2

variable {α : Type} [LinearOrderedField α]

/-- C2: In scaled dot-product attention, the dropout passed to
`MultiHeadAttentionBlock.attention` has no effect on the result: for every
query, key, value and mask, the returned `(output, attention_scores)` pair
is identical whether the dropout argument is applied or absent, because
`attention_scores - dropout(attention_scores)` is computed as a
non-assigned expression and the raw softmax weights are the ones
multiplied with the values. -/
theorem attention_dropout_has_no_effect (ops : Ops α) (query key value : T4 α)
    (mask : Option (N4 Bool)) (f : T4 α → T4 α) :
    MultiHeadAttentionBlock.attention ops query key value mask (some f) =
      MultiHeadAttentionBlock.attention ops query key value mask none := rfl

end ClaimC2

section ClaimC7

variable {α : Type} [LinearOrderedField α]

/-- C7 (amended): forward computation of the attention block never touches
the learned parameters and its output ignores previously stored state, but
it is not attribute-free: the module returned by
`MultiHeadAttentionBlock.forward` agrees with the input module on every
field except `attention_scores`, which is freshly (re)assigned on every
call, and the output tensor does not depend on the incoming
`attention_scores` value. -/
theorem mha_forward_writes_only_attention_scores (ops : Ops α)
    (m : MultiHeadAttentionBlock α) (training : Bool) (η : N4 α)
    (q k v : T3 α) (mask : Option (N4 Bool)) :
    (MultiHeadAttentionBlock.forward ops m training η q k v mask).2 =
      { m with attention_scores :=
          (MultiHeadAttentionBlock.forward ops m training η q k v mask).2.attention_scores } ∧
    (MultiHeadAttentionBlock.forward ops m training η q k v mask).2.attention_scores.isSome = true ∧
    ∀ a : Option (T4 α),
      (MultiHeadAttentionBlock.forward ops
          { m with attention_scores := a } training η q k v mask).1 =
        (MultiHeadAttentionBlock.forward ops m training η q k v mask).1 :=
  ⟨rfl, rfl, fun _ => rfl⟩

/-- C7 counterexample to the claim as stated: a concrete forward call after
which the module state has changed — `attention_scores` was `none` before
the call and is written by it. -/
theorem mha_forward_mutates_attention_scores :
    (MultiHeadAttentionBlock.forward realOps
        (⟨1, 1, ⟨[[1]], [0]⟩, ⟨[[1]], [0]⟩, ⟨[[1]], [0]⟩, ⟨[[1]], [0]⟩, none⟩ :
          MultiHeadAttentionBlock ℝ)
        false (fun _ _ _ _ => 0) [[[1]]] [[[1]]] [[[1]]] none).2.attention_scores ≠
      (⟨1, 1, ⟨[[1]], [0]⟩, ⟨[[1]], [0]⟩, ⟨[[1]], [0]⟩, ⟨[[1]], [0]⟩, none⟩ :
          MultiHeadAttentionBlock ℝ).attention_scores := by
  simp [MultiHeadAttentionBlock.forward]

end ClaimC7

section ClaimC1

variable {α : Type} [LinearOrderedField α]

/-- C1 (amended): for a stack depth `N ≥ 1` (the source default is 6),
`build_transformer` succeeds iff the positional-encoding table can be
written (`d_model` even or `d_model ≤ 2`) and the attention blocks'
divisibility check passes (`h ≥ 1` — `d_model % h` itself raises for
`h = 0` — and `d_model % h == 0`).  The bare divisibility condition of the
claim is neither sufficient (odd `d_model ≥ 3` fails in
`PositionalEncoding.__init__`) nor checked at all when `N = 0`. -/
theorem build_transformer_succeeds_iff (ops : Ops α) (g : Nat → Nat → α)
    (sv tv ss ts d N h dff : Nat) (hN : 0 < N) :
    (build_transformer ops g sv tv ss ts d N h dff).isSome ↔
      ((d % 2 = 0 ∨ d ≤ 2) ∧ 0 < h ∧ d % h = 0) := by
  have hrange : List.range N ≠ [] := by
    simp only [ne_eq, List.range_eq_nil]
    omega
  by_cases hpe : d % 2 = 0 ∨ d ≤ 2
  · by_cases hmh : 0 < h ∧ d % h = 0
    · have henc : mkEncoderBlock g d h dff =
          some ⟨⟨d, h, mkLin g d d, mkLin g d d, mkLin g d d, mkLin g d d,
            none⟩, mkFeedForwardBlock g d dff, ⟨mkLayerNorm⟩, ⟨mkLayerNorm⟩⟩ := by
        simp [mkEncoderBlock, mkMultiHeadAttentionBlock, hmh]
      have hdec : mkDecoderBlock g d h dff =
          some ⟨⟨d, h, mkLin g d d, mkLin g d d, mkLin g d d, mkLin g d d,
            none⟩,
            ⟨d, h, mkLin g d d, mkLin g d d, mkLin g d d, mkLin g d d, none⟩,
            mkFeedForwardBlock g d dff, ⟨mkLayerNorm⟩, ⟨mkLayerNorm⟩,
            ⟨mkLayerNorm⟩⟩ := by
        simp [mkDecoderBlock, mkMultiHeadAttentionBlock, hmh]
      simp [build_transformer, peInit, hpe, hmh, henc, hdec, mapMOpt_const_some]
    · have henc : (mkEncoderBlock g d h dff : Option (EncoderBlock α)) = none := by
        simp [mkEncoderBlock, mkMultiHeadAttentionBlock, hmh]
      have hmap : mapMOpt (fun _ => (mkEncoderBlock g d h dff : Option (EncoderBlock α)))
          (List.range N) = none := by
        rw [henc]
        exact mapMOpt_const_none _ hrange
      simp [build_transformer, peInit, hpe, hmh, hmap]
  · simp [build_transformer, peInit, hpe]

/-- C1 counterexample to the claim as stated: with `d_model = 3` and
`h = 1` the divisibility `3 % 1 == 0` holds, yet `build_transformer` fails
fatally — the odd feature dimension makes the
`pe[:, 1::2] = cos(position * div_term)` assignment a shape mismatch. -/
theorem build_transformer_fails_on_odd_d_model :
    3 % 1 = 0 ∧
      (build_transformer realOps (fun _ _ => (0 : ℝ)) 1 1 1 1 3 1 1 1).isSome = false := by
  refine ⟨rfl, ?_⟩
  norm_num [build_transformer, peInit]

/-- Witness for `build_transformer_succeeds_iff` at a concrete input. -/
theorem build_transformer_succeeds_iff_witness :
    (build_transformer ratOps (fun _ _ => (0 : ℚ)) 1 1 1 1 4 1 2 1).isSome ↔
      ((4 % 2 = 0 ∨ 4 ≤ 2) ∧ 0 < 2 ∧ 4 % 2 = 0) :=
  build_transformer_succeeds_iff ratOps (fun _ _ => (0 : ℚ)) 1 1 1 1 4 1 2 1
    (by decide)

end ClaimC1

section ClaimC10

variable {α : Type} [LinearOrderedField α]

theorem addVecB_isSome_of_length_eq (a b : T1 α) (h : b.length = a.length) :
    (addVecB a b).isSome := by
  simp [addVecB, h]

theorem addRowsB_isSome_iff (xb p : T2 α) (s d L : Nat)
    (hxblen : xb.length = s) (hxbrows : ∀ r ∈ xb, r.length = d)
    (hplen : p.length = min s L) (hprows : ∀ r ∈ p, r.length = d) :
    (addRowsB xb p).isSome ↔ (s ≤ L ∨ L = 1 ∨ s = 1) := by
  unfold addRowsB
  split_ifs with h1 h2 h3
  · have hsL : s ≤ L := by
      rw [hxblen] at h1
      rw [hplen] at h1
      omega
    refine iff_of_true ?_ (Or.inl hsL)
    rw [mapMOpt_isSome_iff]
    intro ab hab
    have hmem := List.of_mem_zip hab
    exact addVecB_isSome_of_length_eq _ _
      ((hprows _ hmem.2).trans (hxbrows _ hmem.1).symm)
  · have hmin : min s L = 1 := hplen ▸ h2
    refine iff_of_true ?_ (by omega)
    rw [mapMOpt_isSome_iff]
    intro r hr
    have hp0 : p.getD 0 [] ∈ p := by
      have : 0 < p.length := by omega
      rw [List.getD_eq_getElem _ _ this]
      exact List.getElem_mem this
    exact addVecB_isSome_of_length_eq _ _
      ((hprows _ hp0).trans (hxbrows _ hr).symm)
  · have hs1 : s = 1 := hxblen ▸ h3
    refine iff_of_true ?_ (Or.inr (Or.inr hs1))
    rw [mapMOpt_isSome_iff]
    intro r hr
    have hxb0 : xb.getD 0 [] ∈ xb := by
      have : 0 < xb.length := by omega
      rw [List.getD_eq_getElem _ _ this]
      exact List.getElem_mem this
    exact addVecB_isSome_of_length_eq _ _
      ((hprows _ hr).trans (hxbrows _ hxb0).symm)
  · simp only [Option.isSome_none, Bool.false_eq_true, false_iff]
    rw [hxblen] at h1 h3
    rw [hplen] at h1 h2
    omega

/-- C10 (amended): `PositionalEncoding.forward` adds the table slice
`pe[:, :x.shape[1], :]` to `x` under torch broadcasting, so for an input
of shape `(b, s, d)` (`b ≥ 1`) over a table of `L` rows the addition
succeeds iff `s ≤ L` or `L = 1` or `s = 1`: sequences up to the
constructed maximum always work, and longer ones still work when the
sliced table (or the input) has a broadcastable sequence dimension of 1;
only the remaining mismatches fail in the tensor substrate. -/
theorem posenc_seq_len_condition (m : PositionalEncoding α) (training : Bool)
    (η : N3 α) (x : T3 α) (b s d L : Nat) (hx : IsT3S x b s d) (hb : 0 < b)
    (hpe : IsMat m.pe L d) :
    (PositionalEncoding.forward m training η x).isSome ↔
      (s ≤ L ∨ L = 1 ∨ s = 1) := by
  have hseq : seqOf x = s := by
    cases x with
    | nil => simp [IsT3S] at hx; omega
    | cons x0 xs =>
      have hx0 : IsMat x0 s d := hx.2 x0 (List.mem_cons_self x0 xs)
      simpa [seqOf] using hx0.1
  have hmap : (PositionalEncoding.forward m training η x).isSome =
      (addPeB x (m.pe.take (seqOf x))).isSome := by
    unfold PositionalEncoding.forward
    cases addPeB x (m.pe.take (seqOf x)) <;> rfl
  rw [hmap, hseq]
  unfold addPeB
  rw [mapMOpt_isSome_iff]
  have hplen : (m.pe.take s).length = min s L := by
    rw [List.length_take, hpe.1]
  have hprows : ∀ r ∈ m.pe.take s, r.length = d := fun r hr =>
    hpe.2 r (List.take_subset s m.pe hr)
  constructor
  · intro hall
    cases x with
    | nil => simp [IsT3S] at hx; omega
    | cons x0 xs =>
      have hx0 : IsMat x0 s d := hx.2 x0 (List.mem_cons_self x0 xs)
      exact (addRowsB_isSome_iff x0 (m.pe.take s) s d L hx0.1 hx0.2 hplen
        hprows).mp (hall x0 (List.mem_cons_self x0 xs))
  · intro hcond xb hxb
    have hxbm : IsMat xb s d := hx.2 xb hxb
    exact (addRowsB_isSome_iff xb (m.pe.take s) s d L hxbm.1 hxbm.2 hplen
      hprows).mpr hcond

/-- C10 counterexample to the claim as stated: a table constructed with
maximum sequence length 1 accepts an input of sequence length 2 — the
length-1 slice broadcasts, the elementwise addition succeeds, and the
claimed substrate failure does not happen. -/
theorem posenc_accepts_longer_than_max :
    (PositionalEncoding.forward (⟨[[0]]⟩ : PositionalEncoding ℚ) false
      (fun _ _ _ => 0) [[[1], [2]]]).isSome = true := by
  decide

/-- Witness for `posenc_seq_len_condition` at a concrete input. -/
theorem posenc_seq_len_condition_witness :
    (PositionalEncoding.forward (⟨[[0], [0]]⟩ : PositionalEncoding ℚ) false
        (fun _ _ _ => 0) [[[1], [2], [3]]]).isSome ↔
      (3 ≤ 2 ∨ 2 = 1 ∨ 3 = 1) :=
  posenc_seq_len_condition (⟨[[0], [0]]⟩ : PositionalEncoding ℚ) false
    (fun _ _ _ => 0) [[[1], [2], [3]]] 1 3 1 2 (by decide) (by decide)
    (by decide)

end ClaimC10

section ClaimC8

/-- C8: in the precomputed positional-encoding table of any successful
construction, every entry at sequence position 0 equals `sin 0 = 0` at
even feature indices and `cos 0 = 1` at odd feature indices. -/
theorem pe_row_zero_values (d L i : Nat) (P : T2 ℝ)
    (hP : peInit realOps d L = some P) (hL : 0 < L) (hi : i < d) :
    (P.getD 0 []).getD i 0 = if i % 2 = 0 then 0 else 1 := by
  have hPt : P = peTable realOps d L := by
    unfold peInit at hP
    split_ifs at hP with hc
    · exact (Option.some_inj.mp hP).symm
  subst hPt
  have hlen : 0 < (peTable realOps d L).length := by
    simpa [peTable] using hL
  rw [List.getD_eq_getElem _ _ hlen]
  unfold peTable
  rw [List.getElem_map]
  rw [List.getElem_range]
  have hilen : i < ((List.range d).map
      (fun j => peEntry realOps d 0 j)).length := by
    simpa using hi
  rw [List.getD_eq_getElem _ _ hilen]
  rw [List.getElem_map]
  rw [List.getElem_range]
  by_cases hpar : i % 2 = 0 <;>
    simp [peEntry, hpar, realOps]

/-- Witness for `pe_row_zero_values` at `d_model = 2`, `seq_len = 1`,
odd index 1. -/
theorem pe_row_zero_values_witness :
    ((peTable realOps 2 1).getD 0 []).getD 1 0 =
      if 1 % 2 = 0 then (0 : ℝ) else 1 :=
  pe_row_zero_values 2 1 1 (peTable realOps 2 1) (by norm_num [peInit])
    (by decide) (by decide)

end ClaimC8

section SumLemmas

variable {α : Type} [LinearOrderedField α]

theorem sum_map_div (l : List α) (f : α → α) (c : α) :
    (l.map (fun x => f x / c)).sum = (l.map f).sum / c := by
  induction l with
  | nil => simp
  | cons x xs ih => simp [ih, add_div]

theorem sum_map_sub_const (l : List α) (m : α) :
    (l.map (fun x => x - m)).sum = l.sum - l.length * m := by
  induction l with
  | nil => simp
  | cons x xs ih =>
    simp only [List.map_cons, List.sum_cons, ih, List.length_cons]
    push_cast
    ring

end SumLemmas

section ClaimC4

variable {α : Type} [LinearOrderedField α]

/-- C4 (amended): `LayerNormalization.forward` maps every last-dimension
row `v` (of length ≥ 2) to `alpha * (v - mean) / (std + eps) + bias`; the
pre-scale normalized values `(output - bias) / alpha` have exact mean 0
along the last dimension, but their sample variance is
`var v / (std v + eps)^2` rather than exactly 1 — the epsilon in the
denominator (and `std = 0` on constant rows) makes it differ. -/
theorem layernorm_normalized_mean_zero_var_scaled (ops : Ops α)
    (ln : LayerNormalization α) (x : T3 α) (mat : T2 α) (v : T1 α)
    (hm : mat ∈ x) (hv : v ∈ mat) (hn : 2 ≤ v.length) (ha : ln.alpha ≠ 0) :
    (∃ mat' ∈ LayerNormalization.forward ops ln x, lnRow ops ln v ∈ mat') ∧
    meanL ((lnRow ops ln v).map (fun y => (y - ln.bias) / ln.alpha)) = 0 ∧
    varL ((lnRow ops ln v).map (fun y => (y - ln.bias) / ln.alpha)) =
      varL v / (stdL ops v + ln.eps) ^ 2 := by
  set μ := meanL v with hμ
  set c := stdL ops v + ln.eps with hc
  have hw : (lnRow ops ln v).map (fun y => (y - ln.bias) / ln.alpha)
      = v.map (fun xi => (xi - μ) / c) := by
    unfold lnRow
    rw [List.map_map]
    refine List.map_congr_left ?_
    intro a _
    show (ln.alpha * (a - μ) / c + ln.bias - ln.bias) / ln.alpha = (a - μ) / c
    rw [add_sub_cancel_right, mul_div_assoc, mul_div_cancel_left₀ _ ha]
  have hn0 : (v.length : α) ≠ 0 := Nat.cast_ne_zero.mpr (by omega)
  have hsub : (v.map (fun xi => xi - μ)).sum = 0 := by
    rw [sum_map_sub_const, hμ]
    unfold meanL
    rw [mul_comm, div_mul_cancel₀ _ hn0, sub_self]
  have hmean0 : meanL (v.map (fun xi => (xi - μ) / c)) = 0 := by
    unfold meanL
    rw [sum_map_div v (fun xi => xi - μ) c, hsub, zero_div, zero_div]
  have hvar : varL (v.map (fun xi => (xi - μ) / c)) = varL v / c ^ 2 := by
    unfold varL
    rw [hmean0]
    simp only [sub_zero, List.map_id', List.length_map]
    rw [List.map_map]
    have hcomp : ((fun d => d ^ 2) ∘ fun xi => (xi - μ) / c) =
        fun xi => (xi - μ) ^ 2 / c ^ 2 := by
      funext a
      simp [Function.comp, div_pow]
    rw [hcomp]
    rw [sum_map_div v (fun xi => (xi - μ) ^ 2) (c ^ 2)]
    rw [List.map_map]
    have hcomp2 : ((fun d => d ^ 2) ∘ fun xi => xi - μ) =
        fun xi => (xi - μ) ^ 2 := by
      funext a
      simp [Function.comp]
    rw [hcomp2, div_right_comm]
  refine ⟨⟨mat.map (lnRow ops ln), ?_, ?_⟩, ?_, ?_⟩
  · exact List.mem_map_of_mem (fun m => m.map (lnRow ops ln)) hm
  · exact List.mem_map_of_mem (lnRow ops ln) hv
  · rw [hw]
    exact hmean0
  · rw [hw]
    exact hvar

/-- C4 counterexample to the claim as stated: on the constant row
`[1, 1]` the pre-scale normalized values are `[0, 0]` (std is 0, the
epsilon keeps the division finite), whose variance is 0, not 1. -/
theorem layernorm_unit_variance_fails :
    varL ((((LayerNormalization.forward realOps mkLayerNorm
        [[[1, 1]]]).headD []).headD []).map
      (fun y => (y - (mkLayerNorm : LayerNormalization ℝ).bias) /
        (mkLayerNorm : LayerNormalization ℝ).alpha)) ≠ 1 := by
  norm_num [LayerNormalization.forward, lnRow, meanL, varL, stdL,
    mkLayerNorm, realOps, Real.sqrt_zero]

/-- Witness for `layernorm_normalized_mean_zero_var_scaled` at the
concrete row `[0, 2]`. -/
theorem layernorm_normalized_mean_zero_var_scaled_witness :
    (∃ mat' ∈ LayerNormalization.forward ratOps mkLayerNorm [[[0, 2]]],
      lnRow ratOps mkLayerNorm [0, 2] ∈ mat') ∧
    meanL ((lnRow ratOps mkLayerNorm [0, 2]).map
      (fun y => (y - (mkLayerNorm : LayerNormalization ℚ).bias) /
        (mkLayerNorm : LayerNormalization ℚ).alpha)) = 0 ∧
    varL ((lnRow ratOps mkLayerNorm [0, 2]).map
      (fun y => (y - (mkLayerNorm : LayerNormalization ℚ).bias) /
        (mkLayerNorm : LayerNormalization ℚ).alpha)) =
      varL [0, 2] / (stdL ratOps [0, 2] + (mkLayerNorm : LayerNormalization ℚ).eps) ^ 2 :=
  layernorm_normalized_mean_zero_var_scaled ratOps mkLayerNorm [[[0, 2]]]
    [[0, 2]] [0, 2] (by decide) (by decide) (by decide) (by decide)

end ClaimC4

section ClaimC5

theorem logSoftmaxRow_exp_sum (z : List ℝ) (hz : z ≠ []) :
    ((logSoftmaxRow realOps z).map Real.exp).sum = 1 := by
  have hS : 0 < (z.map Real.exp).sum := by
    refine List.sum_pos _ ?_ (by simpa using hz)
    intro a ha
    rw [List.mem_map] at ha
    obtain ⟨b, _, rfl⟩ := ha
    exact Real.exp_pos b
  unfold logSoftmaxRow
  rw [List.map_map]
  have hcomp : (Real.exp ∘ fun zi => zi - realOps.log ((z.map realOps.exp).sum)) =
      fun zi => Real.exp zi / (z.map Real.exp).sum := by
    funext a
    simp [Function.comp, realOps, Real.exp_sub, Real.exp_log hS]
  rw [hcomp]
  rw [sum_map_div z Real.exp ((z.map Real.exp).sum)]
  exact div_self (ne_of_gt hS)

/-- C5: for every input tensor `x` and every batch row and sequence
position of `Transformer.project`, summing `exp` over the vocabulary
dimension yields 1 — the log-softmax head returns a valid per-position
log-probability distribution (the projection must have a nonempty
vocabulary). -/
theorem project_exp_sum_one (t : Transformer ℝ) (x : T3 ℝ)
    (hw : 0 < t.projection_layer.proj.w.length)
    (hb : 0 < t.projection_layer.proj.b.length) :
    ∀ mat ∈ Transformer.project realOps t x, ∀ row ∈ mat,
      (row.map Real.exp).sum = 1 := by
  intro mat hmat row hrow
  unfold Transformer.project ProjectionLayer.forward at hmat
  rw [List.mem_map] at hmat
  obtain ⟨m1, hm1, rfl⟩ := hmat
  rw [List.mem_map] at hrow
  obtain ⟨z, hz, rfl⟩ := hrow
  unfold linT3 at hm1
  rw [List.mem_map] at hm1
  obtain ⟨m0, hm0, rfl⟩ := hm1
  rw [List.mem_map] at hz
  obtain ⟨v, hv, rfl⟩ := hz
  apply logSoftmaxRow_exp_sum
  apply List.ne_nil_of_length_pos
  unfold linForward
  rw [List.length_zipWith]
  omega

/-- Witness for `project_exp_sum_one` on a one-word vocabulary. -/
theorem project_exp_sum_one_witness :
    ((((Transformer.project realOps
        (⟨⟨[], mkLayerNorm⟩, ⟨[], mkLayerNorm⟩, ⟨1, [[1]]⟩, ⟨1, [[1]]⟩,
          ⟨[[0]]⟩, ⟨[[0]]⟩, ⟨⟨[[1]], [0]⟩⟩⟩ : Transformer ℝ)
        [[[2]]]).headD []).headD []).map Real.exp).sum = 1 :=
  project_exp_sum_one
    (⟨⟨[], mkLayerNorm⟩, ⟨[], mkLayerNorm⟩, ⟨1, [[1]]⟩, ⟨1, [[1]]⟩,
      ⟨[[0]]⟩, ⟨[[0]]⟩, ⟨⟨[[1]], [0]⟩⟩⟩ : Transformer ℝ)
    [[[2]]] (by decide) (by decide) _ (List.mem_cons_self _ _) _
    (List.mem_cons_self _ _)

end ClaimC5

section ShapeLemmas

variable {α : Type} [LinearOrderedField α]

theorem forall_mem_mapIdx {β γ : Type} {f : Nat → β → γ} {l : List β}
    {P : γ → Prop} (h : ∀ i b, b ∈ l → P (f i b)) :
    ∀ c ∈ l.mapIdx f, P c := by
  intro c hc
  rw [List.mem_iff_getElem] at hc
  obtain ⟨i, hi, rfl⟩ := hc
  rw [List.getElem_mapIdx]
  exact h i _ (List.getElem_mem _)

theorem dropApply_shape (training : Bool) (η : N3 α) (x : T3 α)
    {b s d : Nat} (hx : IsT3S x b s d) :
    IsT3S (dropApply training η x) b s d := by
  unfold dropApply
  split
  · refine ⟨by simpa [List.length_mapIdx] using hx.1, ?_⟩
    refine forall_mem_mapIdx ?_
    intro i m hm
    refine ⟨by simpa [List.length_mapIdx] using (hx.2 m hm).1, ?_⟩
    refine forall_mem_mapIdx ?_
    intro j r hr
    simpa [List.length_mapIdx] using (hx.2 m hm).2 r hr
  · exact hx

theorem getD_vAdd (a a' : T1 α) (d k : Nat) (ha : a.length = d)
    (ha' : a'.length = d) (hk : k < d) :
    (vAdd a a').getD k 0 = a.getD k 0 + a'.getD k 0 := by
  unfold vAdd
  have h1 : k < (List.zipWith (· + ·) a a').length := by
    rw [List.length_zipWith]
    omega
  rw [List.getD_eq_getElem _ _ h1, List.getElem_zipWith,
    List.getD_eq_getElem _ _ (show k < a.length by omega),
    List.getD_eq_getElem _ _ (show k < a'.length by omega)]

theorem getD_matAdd (m1 m2 : T2 α) (s d j k : Nat) (h1 : IsMat m1 s d)
    (h2 : IsMat m2 s d) (hj : j < s) (hk : k < d) :
    ((List.zipWith vAdd m1 m2).getD j []).getD k 0 =
      (m1.getD j []).getD k 0 + (m2.getD j []).getD k 0 := by
  have h1l := h1.1
  have h2l := h2.1
  have hjl : j < (List.zipWith vAdd m1 m2).length := by
    rw [List.length_zipWith]
    omega
  rw [List.getD_eq_getElem _ _ hjl, List.getElem_zipWith,
    List.getD_eq_getElem _ _ (show j < m1.length by omega),
    List.getD_eq_getElem _ _ (show j < m2.length by omega)]
  exact getD_vAdd _ _ d k (h1.2 _ (List.getElem_mem _))
    (h2.2 _ (List.getElem_mem _)) hk

theorem get3_addT3 (x y : T3 α) (b s d i j k : Nat) (hx : IsT3S x b s d)
    (hy : IsT3S y b s d) (hi : i < b) (hj : j < s) (hk : k < d) :
    get3 (addT3 x y) i j k = get3 x i j k + get3 y i j k := by
  unfold get3 addT3
  have hxl := hx.1
  have hyl := hy.1
  have hil : i < (List.zipWith (fun xm ym => List.zipWith vAdd xm ym) x y).length := by
    rw [List.length_zipWith]
    omega
  rw [List.getD_eq_getElem _ _ hil, List.getElem_zipWith,
    List.getD_eq_getElem _ _ (show i < x.length by omega),
    List.getD_eq_getElem _ _ (show i < y.length by omega)]
  exact getD_matAdd _ _ s d j k (hx.2 _ (List.getElem_mem _))
    (hy.2 _ (List.getElem_mem _)) hj hk

end ShapeLemmas

section ClaimC6

variable {α : Type} [LinearOrderedField α]

/-- C6: `ResidualConnection.forward` computes exactly
`x + dropout(sublayer(norm(x)))` — the pre-normalization residual pattern:
its own layer normalization is applied to the input before the sublayer,
and (elementwise, at every valid index) the untouched input `x` is added
to the dropout of the sublayer result. -/
theorem residual_connection_pre_norm_formula (ops : Ops α)
    (rc : ResidualConnection α) (training : Bool) (η : N3 α) (x : T3 α)
    (sublayer : T3 α → T3 α) (b s d i j k : Nat) (hx : IsT3S x b s d)
    (hf : IsT3S (sublayer (LayerNormalization.forward ops rc.norm x)) b s d)
    (hi : i < b) (hj : j < s) (hk : k < d) :
    ResidualConnection.forward ops rc training η x sublayer =
      addT3 x (dropApply training η
        (sublayer (LayerNormalization.forward ops rc.norm x))) ∧
    get3 (ResidualConnection.forward ops rc training η x sublayer) i j k =
      get3 x i j k + get3 (dropApply training η
        (sublayer (LayerNormalization.forward ops rc.norm x))) i j k :=
  ⟨rfl, get3_addT3 _ _ b s d i j k hx (dropApply_shape training η _ hf) hi hj hk⟩

/-- Witness for `residual_connection_pre_norm_formula` at a concrete
input with the identity sublayer. -/
theorem residual_connection_pre_norm_formula_witness :
    ResidualConnection.forward ratOps ⟨mkLayerNorm⟩ false (fun _ _ _ => 0)
        [[[1]]] id =
      addT3 [[[1]]] (dropApply false (fun _ _ _ => 0)
        (id (LayerNormalization.forward ratOps
          (⟨mkLayerNorm⟩ : ResidualConnection ℚ).norm [[[1]]]))) ∧
    get3 (ResidualConnection.forward ratOps ⟨mkLayerNorm⟩ false
        (fun _ _ _ => 0) [[[1]]] id) 0 0 0 =
      get3 [[[1]]] 0 0 0 + get3 (dropApply false (fun _ _ _ => 0)
        (id (LayerNormalization.forward ratOps
          (⟨mkLayerNorm⟩ : ResidualConnection ℚ).norm [[[1]]]))) 0 0 0 :=
  residual_connection_pre_norm_formula ratOps ⟨mkLayerNorm⟩ false
    (fun _ _ _ => 0) [[[1]]] id 1 1 1 0 0 0 (by decide) (by decide)
    (by decide) (by decide) (by decide)

end ClaimC6

section ShapeLemmasC3

variable {α : Type} [LinearOrderedField α]

theorem forall_mem_zipWith {β γ δ : Type} {f : β → γ → δ} {l1 : List β}
    {l2 : List γ} {P : δ → Prop}
    (h : ∀ i, ∀ h1 : i < l1.length, ∀ h2 : i < l2.length,
      P (f (l1.get ⟨i, h1⟩) (l2.get ⟨i, h2⟩))) :
    ∀ c ∈ List.zipWith f l1 l2, P c := by
  intro c hc
  rw [List.mem_iff_getElem] at hc
  obtain ⟨i, hi, rfl⟩ := hc
  have hi' := hi
  rw [List.length_zipWith] at hi'
  rw [List.getElem_zipWith]
  exact h i (by omega) (by omega)

theorem sum_map_const_nat {β : Type} (l : List β) (f : β → Nat) (n : Nat)
    (h : ∀ x ∈ l, f x = n) : (l.map f).sum = l.length * n := by
  induction l with
  | nil => simp
  | cons x xs ih =>
    simp only [List.map_cons, List.sum_cons, List.length_cons]
    rw [h x (List.mem_cons_self x xs), ih (fun y hy => h y (List.mem_cons
      |>.mpr (Or.inr hy)))]
    ring

theorem linForward_length (l : LinearP α) (dout din : Nat)
    (hl : LinWF l dout din) (v : T1 α) : (linForward l v).length = dout := by
  unfold linForward
  rw [List.length_zipWith]
  have h1 := hl.1.1
  have h2 := hl.2
  omega

theorem linT3_shape (l : LinearP α) (dout din : Nat) (hl : LinWF l dout din)
    (x : T3 α) {b s d0 : Nat} (hx : IsT3S x b s d0) :
    IsT3S (linT3 l x) b s dout := by
  unfold linT3
  refine ⟨by simpa using hx.1, ?_⟩
  intro m hm
  rw [List.mem_map] at hm
  obtain ⟨m0, hm0, rfl⟩ := hm
  refine ⟨by simpa using (hx.2 m0 hm0).1, ?_⟩
  intro r hr
  rw [List.mem_map] at hr
  obtain ⟨v, hv, rfl⟩ := hr
  exact linForward_length l dout din hl v

theorem lnForward_shape (ops : Ops α) (ln : LayerNormalization α) (x : T3 α)
    {b s d : Nat} (hx : IsT3S x b s d) :
    IsT3S (LayerNormalization.forward ops ln x) b s d := by
  unfold LayerNormalization.forward
  refine ⟨by simpa using hx.1, ?_⟩
  intro m hm
  rw [List.mem_map] at hm
  obtain ⟨m0, hm0, rfl⟩ := hm
  refine ⟨by simpa using (hx.2 m0 hm0).1, ?_⟩
  intro r hr
  rw [List.mem_map] at hr
  obtain ⟨v, hv, rfl⟩ := hr
  simpa [lnRow] using (hx.2 m0 hm0).2 v hv

theorem reluT3_shape (x : T3 α) {b s d : Nat} (hx : IsT3S x b s d) :
    IsT3S (reluT3 x) b s d := by
  unfold reluT3
  refine ⟨by simpa using hx.1, ?_⟩
  intro m hm
  rw [List.mem_map] at hm
  obtain ⟨m0, hm0, rfl⟩ := hm
  refine ⟨by simpa using (hx.2 m0 hm0).1, ?_⟩
  intro r hr
  rw [List.mem_map] at hr
  obtain ⟨v, hv, rfl⟩ := hr
  simpa using (hx.2 m0 hm0).2 v hv

theorem addT3_shape (x y : T3 α) {b s d : Nat} (hx : IsT3S x b s d)
    (hy : IsT3S y b s d) : IsT3S (addT3 x y) b s d := by
  unfold addT3
  have hxl := hx.1
  have hyl := hy.1
  refine ⟨by rw [List.length_zipWith]; omega, ?_⟩
  refine forall_mem_zipWith ?_
  intro i h1 h2
  have hm1 : IsMat (x.get ⟨i, h1⟩) s d := hx.2 _ (List.get_mem x i h1)
  have hm2 : IsMat (y.get ⟨i, h2⟩) s d := hy.2 _ (List.get_mem y i h2)
  have hm1l := hm1.1
  have hm2l := hm2.1
  refine ⟨by rw [List.length_zipWith]; omega, ?_⟩
  refine forall_mem_zipWith ?_
  intro j hj1 hj2
  have hr1 := hm1.2 _ (List.get_mem _ j hj1)
  have hr2 := hm2.2 _ (List.get_mem _ j hj2)
  unfold vAdd
  rw [List.length_zipWith]
  omega

theorem ffn_shape (f : FeedForwardBlock α) {d dff : Nat}
    (hf : FfnWF f d dff) (training : Bool) (η : N3 α) (x : T3 α)
    {b s : Nat} (hx : IsT3S x b s d) :
    IsT3S (FeedForwardBlock.forward f training η x) b s d := by
  unfold FeedForwardBlock.forward
  exact linT3_shape _ d dff hf.2 _
    (dropApply_shape _ _ _ (reluT3_shape _ (linT3_shape _ dff d hf.1 _ hx)))

theorem splitHeads_shape (h d_k : Nat) (x : T3 α) {b s : Nat}
    (hx : IsT3S x b s (h * d_k)) : IsT4S (splitHeads h d_k x) b h s d_k := by
  unfold splitHeads
  refine ⟨by simpa using hx.1, ?_⟩
  intro c hc
  rw [List.mem_map] at hc
  obtain ⟨xb, hxb, rfl⟩ := hc
  refine ⟨by simp, ?_⟩
  intro hd hhd
  rw [List.mem_map] at hhd
  obtain ⟨i, hi, rfl⟩ := hhd
  rw [List.mem_range] at hi
  refine ⟨by simpa using (hx.2 xb hxb).1, ?_⟩
  intro r hr
  rw [List.mem_map] at hr
  obtain ⟨r0, hr0, rfl⟩ := hr
  have hrl : r0.length = h * d_k := (hx.2 xb hxb).2 r0 hr0
  have hmul : (i + 1) * d_k ≤ h * d_k := Nat.mul_le_mul_right d_k (by omega)
  rw [Nat.succ_mul] at hmul
  rw [List.length_take, List.length_drop]
  omega

theorem matScores_shape (ops : Ops α) (d0 : Nat) (q k : T2 α)
    {sq sk dk : Nat} (hq : IsMat q sq dk) (hk : IsMat k sk dk) :
    IsMat (matScores ops d0 q k) sq sk := by
  unfold matScores
  refine ⟨by simpa using hq.1, ?_⟩
  intro r hr
  rw [List.mem_map] at hr
  obtain ⟨qr, hqr, rfl⟩ := hr
  simpa using hk.1

theorem softmaxRow_length (ops : Ops α) (v : T1 α) :
    (softmaxRow ops v).length = v.length := by
  simp [softmaxRow]

theorem maskFill_shape (mask : N4 Bool) (x : T4 α) {b h s s' : Nat}
    (hx : IsT4S x b h s s') : IsT4S (maskFill mask x) b h s s' := by
  unfold maskFill
  refine ⟨by simpa [List.length_mapIdx] using hx.1, ?_⟩
  refine forall_mem_mapIdx ?_
  intro i c hc
  refine ⟨by simpa [List.length_mapIdx] using (hx.2 c hc).1, ?_⟩
  refine forall_mem_mapIdx ?_
  intro j m hm
  refine ⟨by simpa [List.length_mapIdx] using ((hx.2 c hc).2 m hm).1, ?_⟩
  refine forall_mem_mapIdx ?_
  intro p r hr
  simpa [List.length_mapIdx] using ((hx.2 c hc).2 m hm).2 r hr

theorem vAdd_length (a a' : T1 α) :
    (vAdd a a').length = min a.length a'.length := by
  unfold vAdd
  rw [List.length_zipWith]

theorem foldr_vAdd_length (rs : List (T1 α)) (base : T1 α) (n : Nat)
    (hrs : ∀ r ∈ rs, r.length = n) (hbase : base.length = n) :
    (rs.foldr vAdd base).length = n := by
  induction rs with
  | nil => simpa using hbase
  | cons r rest ih =>
    simp only [List.foldr_cons]
    have h1 := hrs r (List.mem_cons_self r rest)
    have h2 := ih (fun r' hr' => hrs r' (List.mem_cons.mpr (Or.inr hr')))
    rw [vAdd_length]
    omega

theorem vecMatMul_length (w : T1 α) (v : T2 α) {sv dk : Nat}
    (hv : IsMat v sv dk) (hsv : 0 < sv) : (vecMatMul w v).length = dk := by
  unfold vecMatMul
  have hhead : (v.headD []).length = dk := by
    cases v with
    | nil => simp [IsMat] at hv; omega
    | cons v0 vs => exact hv.2 v0 (List.mem_cons_self v0 vs)
  refine foldr_vAdd_length _ _ dk ?_ (by simpa using hhead)
  refine forall_mem_zipWith ?_
  intro i h1 h2
  simpa using hv.2 _ (List.get_mem v i h2)

theorem matApply_shape (smat v : T2 α) {s dk : Nat} (hs : IsMat smat s s)
    (hv : IsMat v s dk) : IsMat (matApply smat v) s dk := by
  unfold matApply
  refine ⟨by simpa using hs.1, ?_⟩
  intro r hr
  rw [List.mem_map] at hr
  obtain ⟨sr, hsr, rfl⟩ := hr
  have hs0 : 0 < s := by
    have := hs.1
    cases smat with
    | nil => simp at hsr
    | cons a l => simp at this; omega
  exact vecMatMul_length sr v hv hs0

theorem rawScores_shape (ops : Ops α) (d0 : Nat) (query key : T4 α)
    {b h s dk : Nat} (hq : IsT4S query b h s dk) (hk : IsT4S key b h s dk) :
    IsT4S (List.zipWith (fun qb kb =>
      List.zipWith (fun qh kh => matScores ops d0 qh kh) qb kb) query key)
      b h s s := by
  have hql := hq.1
  have hkl := hk.1
  refine ⟨by rw [List.length_zipWith]; omega, ?_⟩
  refine forall_mem_zipWith ?_
  intro i h1 h2
  have hqb := hq.2 _ (List.get_mem query i h1)
  have hkb := hk.2 _ (List.get_mem key i h2)
  have hqbl := hqb.1
  have hkbl := hkb.1
  refine ⟨by rw [List.length_zipWith]; omega, ?_⟩
  refine forall_mem_zipWith ?_
  intro j hj1 hj2
  exact matScores_shape ops _ _ _ (hqb.2 _ (List.get_mem _ j hj1))
    (hkb.2 _ (List.get_mem _ j hj2))

theorem softmax4_shape (ops : Ops α) (x : T4 α) {b h s s' : Nat}
    (hx : IsT4S x b h s s') :
    IsT4S (List.map (fun c => List.map
      (fun m => List.map (softmaxRow ops) m) c) x) b h s s' := by
  refine ⟨by simpa using hx.1, ?_⟩
  intro c hc
  rw [List.mem_map] at hc
  obtain ⟨c0, hc0, rfl⟩ := hc
  refine ⟨by simpa using (hx.2 c0 hc0).1, ?_⟩
  intro m hm
  rw [List.mem_map] at hm
  obtain ⟨m0, hm0, rfl⟩ := hm
  refine ⟨by simpa using ((hx.2 c0 hc0).2 m0 hm0).1, ?_⟩
  intro r hr
  rw [List.mem_map] at hr
  obtain ⟨r0, hr0, rfl⟩ := hr
  rw [softmaxRow_length]
  exact ((hx.2 c0 hc0).2 m0 hm0).2 r0 hr0

theorem scoresTimesValue_shape (sc value : T4 α) {b h s dk : Nat}
    (hsc : IsT4S sc b h s s) (hv : IsT4S value b h s dk) :
    IsT4S (List.zipWith (fun sb vb => List.zipWith matApply sb vb) sc value)
      b h s dk := by
  have hsl := hsc.1
  have hvl := hv.1
  refine ⟨by rw [List.length_zipWith]; omega, ?_⟩
  refine forall_mem_zipWith ?_
  intro i h1 h2
  have hsb := hsc.2 _ (List.get_mem sc i h1)
  have hvb := hv.2 _ (List.get_mem value i h2)
  have hsbl := hsb.1
  have hvbl := hvb.1
  refine ⟨by rw [List.length_zipWith]; omega, ?_⟩
  refine forall_mem_zipWith ?_
  intro j hj1 hj2
  exact matApply_shape _ _ (hsb.2 _ (List.get_mem _ j hj1))
    (hvb.2 _ (List.get_mem _ j hj2))

theorem attention_shapes (ops : Ops α) (query key value : T4 α)
    (mask : Option (N4 Bool)) (dropout : Option (T4 α → T4 α))
    {b h s dk : Nat} (hq : IsT4S query b h s dk) (hk : IsT4S key b h s dk)
    (hv : IsT4S value b h s dk) :
    IsT4S (MultiHeadAttentionBlock.attention ops query key value mask dropout).1
        b h s dk ∧
      IsT4S (MultiHeadAttentionBlock.attention ops query key value mask
        dropout).2 b h s s := by
  cases mask with
  | none =>
    simp only [MultiHeadAttentionBlock.attention]
    have hsc := softmax4_shape ops _ (rawScores_shape ops (lastDim4 query)
      query key hq hk)
    exact ⟨scoresTimesValue_shape _ _ hsc hv, hsc⟩
  | some m =>
    simp only [MultiHeadAttentionBlock.attention]
    have hsc := softmax4_shape ops _ (maskFill_shape m _
      (rawScores_shape ops (lastDim4 query) query key hq hk))
    exact ⟨scoresTimesValue_shape _ _ hsc hv, hsc⟩

theorem concatHeads_shape (x : T4 α) {b h s dk : Nat}
    (hx : IsT4S x b h s dk) (hh : 0 < h) :
    IsT3S (concatHeads x) b s (h * dk) := by
  unfold concatHeads
  refine ⟨by simpa using hx.1, ?_⟩
  intro m hm
  rw [List.mem_map] at hm
  obtain ⟨xb, hxb, rfl⟩ := hm
  have hxbs : IsT3S xb h s dk := hx.2 xb hxb
  have hhead : (xb.headD []).length = s := by
    cases xb with
    | nil =>
      have := hxbs.1
      simp at this
      omega
    | cons h0 hs' => exact (hxbs.2 h0 (List.mem_cons_self h0 hs')).1
  refine ⟨by simpa using hhead, ?_⟩
  intro r hr
  rw [List.mem_map] at hr
  obtain ⟨p, hp, rfl⟩ := hr
  rw [List.mem_range] at hp
  rw [List.length_flatten, List.map_map]
  rw [sum_map_const_nat _ _ dk]
  · rw [hxbs.1]
  · intro hd hhd
    have hmat : IsMat hd s dk := hxbs.2 hd hhd
    have hpl : p < hd.length := by
      have := hmat.1
      rw [hhead] at hp
      omega
    rw [Function.comp]
    rw [List.getD_eq_getElem _ _ hpl]
    exact hmat.2 _ (List.getElem_mem hpl)

theorem mhaForward_shape (ops : Ops α) (m : MultiHeadAttentionBlock α)
    (training : Bool) (η : N4 α) (q k v : T3 α) (mask : Option (N4 Bool))
    {b s d : Nat} (hm : MhaWF m d) (hq : IsT3S q b s d) (hk : IsT3S k b s d)
    (hv : IsT3S v b s d) :
    IsT3S (MultiHeadAttentionBlock.forward ops m training η q k v mask).1
      b s d := by
  obtain ⟨hdm, hh, hmul, hwq, hwk, hwv, hwo⟩ := hm
  simp only [MultiHeadAttentionBlock.forward]
  have hdk : m.h * (m.d_model / m.h) = d := by
    rw [hdm]
    exact hmul
  have hquery : IsT4S (splitHeads m.h (m.d_model / m.h) (linT3 m.w_q q))
      b m.h s (m.d_model / m.h) :=
    splitHeads_shape _ _ _ (by
      rw [hdk]
      exact linT3_shape _ d d hwq q hq)
  have hkey : IsT4S (splitHeads m.h (m.d_model / m.h) (linT3 m.w_k k))
      b m.h s (m.d_model / m.h) :=
    splitHeads_shape _ _ _ (by
      rw [hdk]
      exact linT3_shape _ d d hwk k hk)
  have hvalue : IsT4S (splitHeads m.h (m.d_model / m.h) (linT3 m.w_v v))
      b m.h s (m.d_model / m.h) :=
    splitHeads_shape _ _ _ (by
      rw [hdk]
      exact linT3_shape _ d d hwv v hv)
  have hatt := attention_shapes ops _ _ _ mask
    (some (dropApply4 training η)) hquery hkey hvalue
  have hcc : IsT3S (concatHeads (MultiHeadAttentionBlock.attention ops
      (splitHeads m.h (m.d_model / m.h) (linT3 m.w_q q))
      (splitHeads m.h (m.d_model / m.h) (linT3 m.w_k k))
      (splitHeads m.h (m.d_model / m.h) (linT3 m.w_v v)) mask
      (some (dropApply4 training η))).1) b s d := by
    rw [← hdk]
    exact concatHeads_shape _ hatt.1 hh
  exact linT3_shape _ d d hwo _ hcc

theorem encBlockForward_shape (ops : Ops α) (blk : EncoderBlock α)
    (training : Bool) (η : BlockNoise α) (x : T3 α)
    (src_mask : Option (N4 Bool)) {b s d dff : Nat}
    (hblk : EncBlockWF blk d dff) (hx : IsT3S x b s d) :
    IsT3S (EncoderBlock.forward ops blk training η x src_mask).1 b s d := by
  simp only [EncoderBlock.forward, ResidualConnection.forwardS,
    ResidualConnection.forward]
  have hx1 : IsT3S (addT3 x (dropApply training η.res0
      (MultiHeadAttentionBlock.forward ops blk.self_attention_block training
        η.attn (LayerNormalization.forward ops blk.res0.norm x)
        (LayerNormalization.forward ops blk.res0.norm x)
        (LayerNormalization.forward ops blk.res0.norm x) src_mask).1))
      b s d := by
    have hln := lnForward_shape ops blk.res0.norm x hx
    exact addT3_shape _ _ hx (dropApply_shape _ _ _
      (mhaForward_shape ops _ training η.attn _ _ _ src_mask hblk.1 hln hln
        hln))
  exact addT3_shape _ _ hx1 (dropApply_shape _ _ _
    (ffn_shape _ hblk.2 training η.ffn _
      (lnForward_shape ops blk.res1.norm _ hx1)))

theorem encLayersForward_shape (ops : Ops α) (training : Bool)
    (ηs : Nat → BlockNoise α) (mask : Option (N4 Bool))
    (layers : List (EncoderBlock α)) (i : Nat) (x : T3 α) {b s d dff : Nat}
    (hall : ∀ blk ∈ layers, EncBlockWF blk d dff) (hx : IsT3S x b s d) :
    IsT3S (encLayersForward ops training ηs mask layers i x).1 b s d := by
  induction layers generalizing i x with
  | nil => simpa [encLayersForward] using hx
  | cons blk blks ih =>
    simp only [encLayersForward]
    exact ih _ _ (fun b' hb' => hall b' (List.mem_cons.mpr (Or.inr hb')))
      (encBlockForward_shape ops blk training (ηs i) x mask
        (hall blk (List.mem_cons_self blk blks)) hx)

theorem encoderForward_shape (ops : Ops α) (e : Encoder α) (training : Bool)
    (ηs : Nat → BlockNoise α) (x : T3 α) (mask : Option (N4 Bool))
    {b s d dff : Nat} (he : EncoderWF e d dff) (hx : IsT3S x b s d) :
    IsT3S (Encoder.forward ops e training ηs x mask).1 b s d := by
  simp only [Encoder.forward]
  exact lnForward_shape ops e.norm _
    (encLayersForward_shape ops training ηs mask e.layers 0 x he hx)

theorem embedForward_shape (ops : Ops α) (m : InputEmbedding α)
    (x : List (List Nat)) {b s V : Nat} (hemb : IsMat m.embedding V m.d_model)
    (htok : IsTokMat x b s) (hids : ∀ row ∈ x, ∀ tok ∈ row, tok < V) :
    IsT3S (InputEmbedding.forward ops m x) b s m.d_model := by
  unfold InputEmbedding.forward
  refine ⟨by simpa using htok.1, ?_⟩
  intro mr hmr
  rw [List.mem_map] at hmr
  obtain ⟨row, hrow, rfl⟩ := hmr
  refine ⟨by simpa using htok.2 row hrow, ?_⟩
  intro r hr
  rw [List.mem_map] at hr
  obtain ⟨tok, htk, rfl⟩ := hr
  have htlt : tok < m.embedding.length := by
    rw [hemb.1]
    exact hids row hrow tok htk
  rw [List.length_map, List.getD_eq_getElem _ _ htlt]
  exact hemb.2 _ (List.getElem_mem htlt)

theorem peTable_shape (ops : Ops α) (d L : Nat) :
    IsMat (peTable ops d L) L d := by
  unfold peTable
  refine ⟨by simp, ?_⟩
  intro r hr
  rw [List.mem_map] at hr
  obtain ⟨p, hp, rfl⟩ := hr
  simp

theorem mapMOpt_eq_map (f : β → Option γ) (g : β → γ) (l : List β)
    (h : ∀ a ∈ l, f a = some (g a)) : mapMOpt f l = some (l.map g) := by
  induction l with
  | nil => rfl
  | cons x xs ih =>
    simp only [mapMOpt, h x (List.mem_cons_self x xs),
      ih (fun a ha => h a (List.mem_cons.mpr (Or.inr ha))), List.map_cons]

theorem addVecB_eq_vAdd (a a' : T1 α) (h : a'.length = a.length) :
    addVecB a a' = some (vAdd a a') := by
  unfold addVecB vAdd
  rw [if_pos h]

theorem map_vAdd_zip (xb p : T2 α) :
    (xb.zip p).map (fun ab : T1 α × T1 α => vAdd ab.1 ab.2) =
      List.zipWith vAdd xb p := by
  induction xb generalizing p with
  | nil => simp
  | cons x xs ih =>
    cases p with
    | nil => simp
    | cons p0 ps => simp [ih]

theorem posEncForward_some_shape (m : PositionalEncoding α)
    (training : Bool) (η : N3 α) (x : T3 α) {b s d L : Nat}
    (hx : IsT3S x b s d) (hb : 0 < b) (hpe : IsMat m.pe L d) (hs : s ≤ L) :
    PositionalEncoding.forward m training η x =
        some (dropApply training η
          (List.map (fun xb => List.zipWith vAdd xb (m.pe.take (seqOf x))) x)) ∧
      IsT3S (dropApply training η
        (List.map (fun xb => List.zipWith vAdd xb (m.pe.take (seqOf x))) x))
        b s d := by
  have hseq : seqOf x = s := by
    cases x with
    | nil => simp [IsT3S] at hx; omega
    | cons x0 xs =>
      have hx0 : IsMat x0 s d := hx.2 x0 (List.mem_cons_self x0 xs)
      simpa [seqOf] using hx0.1
  have hplen : (m.pe.take (seqOf x)).length = s := by
    rw [List.length_take, hseq, hpe.1]
    omega
  have hprows : ∀ r ∈ m.pe.take (seqOf x), r.length = d := fun r hr =>
    hpe.2 r (List.take_subset _ m.pe hr)
  have hadd : addPeB x (m.pe.take (seqOf x)) =
      some (List.map (fun xb => List.zipWith vAdd xb (m.pe.take (seqOf x))) x) := by
    unfold addPeB
    refine mapMOpt_eq_map _ _ _ ?_
    intro xb hxb
    have hxbm : IsMat xb s d := hx.2 xb hxb
    unfold addRowsB
    rw [if_pos (hplen.trans hxbm.1.symm)]
    have hzip : mapMOpt (fun ab => addVecB ab.1 ab.2)
        (xb.zip (m.pe.take (seqOf x))) =
          some ((xb.zip (m.pe.take (seqOf x))).map
            (fun ab : T1 α × T1 α => vAdd ab.1 ab.2)) := by
      refine mapMOpt_eq_map _ _ _ ?_
      intro ab hab
      have hab2 := List.of_mem_zip hab
      exact addVecB_eq_vAdd _ _ ((hprows _ hab2.2).trans
        (hxbm.2 _ hab2.1).symm)
    rw [hzip, map_vAdd_zip]
  have hshape : IsT3S (List.map (fun xb =>
      List.zipWith vAdd xb (m.pe.take (seqOf x))) x) b s d := by
    refine ⟨by simpa using hx.1, ?_⟩
    intro mr hmr
    rw [List.mem_map] at hmr
    obtain ⟨xb, hxb, rfl⟩ := hmr
    have hxbm : IsMat xb s d := hx.2 xb hxb
    have hxbl := hxbm.1
    refine ⟨by rw [List.length_zipWith]; omega, ?_⟩
    refine forall_mem_zipWith ?_
    intro j hj1 hj2
    rw [vAdd_length]
    have h1 := hxbm.2 _ (List.get_mem xb j hj1)
    have h2 := hprows _ (List.get_mem _ j hj2)
    omega
  refine ⟨?_, dropApply_shape _ _ _ hshape⟩
  unfold PositionalEncoding.forward
  rw [hadd]
  rfl

theorem mkMat_shape (g : Nat → Nat → α) (r c : Nat) :
    IsMat (mkMat g r c) r c := by
  unfold mkMat
  refine ⟨by simp, ?_⟩
  intro row hrow
  rw [List.mem_map] at hrow
  obtain ⟨i, _, rfl⟩ := hrow
  simp

theorem mkLin_wf (g : Nat → Nat → α) (dout din : Nat) :
    LinWF (mkLin g dout din) dout din := by
  exact ⟨mkMat_shape g dout din, by simp [mkLin]⟩

theorem mkMha_wf (g : Nat → Nat → α) (d h : Nat) (hh : 0 < h)
    (hdvd : d % h = 0) :
    MhaWF (⟨d, h, mkLin g d d, mkLin g d d, mkLin g d d, mkLin g d d,
      none⟩ : MultiHeadAttentionBlock α) d :=
  ⟨rfl, hh, Nat.mul_div_cancel' (Nat.dvd_of_mod_eq_zero hdvd),
    mkLin_wf g d d, mkLin_wf g d d, mkLin_wf g d d, mkLin_wf g d d⟩

theorem mkEncBlock_wf (g : Nat → Nat → α) (d h dff : Nat) (hh : 0 < h)
    (hdvd : d % h = 0) :
    EncBlockWF (⟨⟨d, h, mkLin g d d, mkLin g d d, mkLin g d d, mkLin g d d,
        none⟩, mkFeedForwardBlock g d dff, ⟨mkLayerNorm⟩, ⟨mkLayerNorm⟩⟩ :
      EncoderBlock α) d dff :=
  ⟨mkMha_wf g d h hh hdvd, mkLin_wf g dff d, mkLin_wf g d dff⟩

end ShapeLemmasC3

section ClaimC3

variable {α : Type} [LinearOrderedField α]

theorem encode_shape_of_wf (ops : Ops α) (t : Transformer α)
    (training : Bool) (ηpos : N3 α) (ηs : Nat → BlockNoise α)
    (src : List (List Nat)) (src_mask : Option (N4 Bool))
    {b s d dff L sv : Nat} (henc : EncoderWF t.encoder d dff)
    (hembM : IsMat t.src_embed.embedding sv d)
    (hdm : t.src_embed.d_model = d) (hpem : IsMat t.src_pos.pe L d)
    (hsrc : IsTokMat src b s) (hb : 0 < b) (hs : s ≤ L)
    (hids : ∀ row ∈ src, ∀ tok ∈ row, tok < sv) :
    ∃ y, Transformer.encode ops t training ηpos ηs src src_mask = some y ∧
      IsT3S y b s d := by
  have hembS : IsT3S (InputEmbedding.forward ops t.src_embed src) b s d := by
    have hembM' : IsMat t.src_embed.embedding sv t.src_embed.d_model := by
      rw [hdm]
      exact hembM
    have h0 := embedForward_shape ops t.src_embed src hembM' hsrc hids
    rw [hdm] at h0
    exact h0
  have hpos := posEncForward_some_shape t.src_pos training ηpos _ hembS hb
    hpem hs
  refine ⟨(Encoder.forward ops t.encoder training ηs (dropApply training ηpos
      (List.map (fun xb => List.zipWith vAdd xb (t.src_pos.pe.take (seqOf
        (InputEmbedding.forward ops t.src_embed src))))
      (InputEmbedding.forward ops t.src_embed src))) src_mask).1, ?_, ?_⟩
  · unfold Transformer.encode
    rw [hpos.1]
    rfl
  · exact encoderForward_shape ops t.encoder training ηs _ src_mask henc
      hpos.2

theorem encode_shape_of_build (ops : Ops α) (g : Nat → Nat → α)
    (sv tv ss ts d N h dff : Nat) (training : Bool) (ηpos : N3 α)
    (ηs : Nat → BlockNoise α) (src : List (List Nat))
    (src_mask : Option (N4 Bool)) (b s : Nat)
    (hpe : d % 2 = 0 ∨ d ≤ 2) (hh : 0 < h) (hdvd : d % h = 0)
    (hsrc : IsTokMat src b s) (hb : 0 < b) (hs : s ≤ ss)
    (hids : ∀ row ∈ src, ∀ tok ∈ row, tok < sv) :
    ∃ t y, build_transformer ops g sv tv ss ts d N h dff = some t ∧
      Transformer.encode ops t training ηpos ηs src src_mask = some y ∧
      IsT3S y b s d := by
  have hpe1 : peInit ops d ss = some (peTable ops d ss) := by
    unfold peInit
    rw [if_pos hpe]
  have hpe2 : peInit ops d ts = some (peTable ops d ts) := by
    unfold peInit
    rw [if_pos hpe]
  have hencb : (mkEncoderBlock g d h dff : Option (EncoderBlock α)) =
      some ⟨⟨d, h, mkLin g d d, mkLin g d d, mkLin g d d, mkLin g d d, none⟩,
        mkFeedForwardBlock g d dff, ⟨mkLayerNorm⟩, ⟨mkLayerNorm⟩⟩ := by
    unfold mkEncoderBlock mkMultiHeadAttentionBlock
    rw [if_pos ⟨hh, hdvd⟩]
    rfl
  have hdecb : (mkDecoderBlock g d h dff : Option (DecoderBlock α)) =
      some ⟨⟨d, h, mkLin g d d, mkLin g d d, mkLin g d d, mkLin g d d, none⟩,
        ⟨d, h, mkLin g d d, mkLin g d d, mkLin g d d, mkLin g d d, none⟩,
        mkFeedForwardBlock g d dff, ⟨mkLayerNorm⟩, ⟨mkLayerNorm⟩,
        ⟨mkLayerNorm⟩⟩ := by
    unfold mkDecoderBlock mkMultiHeadAttentionBlock
    rw [if_pos ⟨hh, hdvd⟩]
    rfl
  have hbuild : build_transformer ops g sv tv ss ts d N h dff = some
      { encoder := ⟨(List.range N).map (fun _ =>
          ⟨⟨d, h, mkLin g d d, mkLin g d d, mkLin g d d, mkLin g d d, none⟩,
            mkFeedForwardBlock g d dff, ⟨mkLayerNorm⟩, ⟨mkLayerNorm⟩⟩),
          mkLayerNorm⟩
        decoder := ⟨(List.range N).map (fun _ =>
          ⟨⟨d, h, mkLin g d d, mkLin g d d, mkLin g d d, mkLin g d d, none⟩,
            ⟨d, h, mkLin g d d, mkLin g d d, mkLin g d d, mkLin g d d, none⟩,
            mkFeedForwardBlock g d dff, ⟨mkLayerNorm⟩, ⟨mkLayerNorm⟩,
            ⟨mkLayerNorm⟩⟩), mkLayerNorm⟩
        src_embed := ⟨d, mkMat g sv d⟩
        tgt_embed := ⟨d, mkMat g tv d⟩
        src_pos := ⟨peTable ops d ss⟩
        tgt_pos := ⟨peTable ops d ts⟩
        projection_layer := ⟨mkLin g tv d⟩ } := by
    simp only [build_transformer, hpe1, hpe2, hencb, hdecb,
      mapMOpt_const_some, Option.some_bind, Option.map_some']
  have hencWF : ∀ blk ∈ (List.range N).map (fun _ =>
      (⟨⟨d, h, mkLin g d d, mkLin g d d, mkLin g d d, mkLin g d d, none⟩,
        mkFeedForwardBlock g d dff, ⟨mkLayerNorm⟩, ⟨mkLayerNorm⟩⟩ :
        EncoderBlock α)), EncBlockWF blk d dff := by
    intro blk hblk
    rw [List.mem_map] at hblk
    obtain ⟨i, _, rfl⟩ := hblk
    exact mkEncBlock_wf g d h dff hh hdvd
  obtain ⟨y, hy, hys⟩ := encode_shape_of_wf ops
    { encoder := ⟨(List.range N).map (fun _ =>
        ⟨⟨d, h, mkLin g d d, mkLin g d d, mkLin g d d, mkLin g d d, none⟩,
          mkFeedForwardBlock g d dff, ⟨mkLayerNorm⟩, ⟨mkLayerNorm⟩⟩),
        mkLayerNorm⟩
      decoder := ⟨(List.range N).map (fun _ =>
        ⟨⟨d, h, mkLin g d d, mkLin g d d, mkLin g d d, mkLin g d d, none⟩,
          ⟨d, h, mkLin g d d, mkLin g d d, mkLin g d d, mkLin g d d, none⟩,
          mkFeedForwardBlock g d dff, ⟨mkLayerNorm⟩, ⟨mkLayerNorm⟩,
          ⟨mkLayerNorm⟩⟩), mkLayerNorm⟩
      src_embed := ⟨d, mkMat g sv d⟩
      tgt_embed := ⟨d, mkMat g tv d⟩
      src_pos := ⟨peTable ops d ss⟩
      tgt_pos := ⟨peTable ops d ts⟩
      projection_layer := ⟨mkLin g tv d⟩ } training ηpos ηs src src_mask
    hencWF (mkMat_shape g sv d) rfl (peTable_shape ops d ss) hsrc hb hs hids
  exact ⟨_, y, hbuild, hy, hys⟩

/-- C3: for every token matrix of shape `(b, s)` with `s` at most the
constructed source maximum length (and valid token ids), the model built
by `build_transformer` encodes it successfully and
`Transformer.encode` returns a tensor of shape `(b, s, d_model)`: batch
and sequence length are preserved and a `d_model` feature dimension is
produced. -/
theorem encode_output_shape (ops : Ops α) (g : Nat → Nat → α)
    (sv tv ss ts d N h dff : Nat) (training : Bool) (ηpos : N3 α)
    (ηs : Nat → BlockNoise α) (src : List (List Nat))
    (src_mask : Option (N4 Bool)) (b s : Nat)
    (hpe : d % 2 = 0 ∨ d ≤ 2) (hh : 0 < h) (hdvd : d % h = 0)
    (hsrc : IsTokMat src b s) (hb : 0 < b) (hs : s ≤ ss)
    (hids : ∀ row ∈ src, ∀ tok ∈ row, tok < sv) :
    ∃ t y, build_transformer ops g sv tv ss ts d N h dff = some t ∧
      Transformer.encode ops t training ηpos ηs src src_mask = some y ∧
      IsT3S y b s d :=
  encode_shape_of_build ops g sv tv ss ts d N h dff training ηpos ηs src
    src_mask b s hpe hh hdvd hsrc hb hs hids

/-- Witness for `encode_output_shape` at a concrete one-token input. -/
theorem encode_output_shape_witness :
    ∃ t y, build_transformer ratOps (fun _ _ => (0 : ℚ)) 1 1 1 1 2 1 1 1 =
        some t ∧
      Transformer.encode ratOps t false (fun _ _ _ => 0)
        (fun _ => ⟨fun _ _ _ _ => 0, fun _ _ _ => 0, fun _ _ _ => 0,
          fun _ _ _ => 0⟩) [[0]] none = some y ∧
      IsT3S y 1 1 2 :=
  encode_output_shape ratOps (fun _ _ => (0 : ℚ)) 1 1 1 1 2 1 1 1 false
    (fun _ _ _ => 0)
    (fun _ => ⟨fun _ _ _ _ => 0, fun _ _ _ => 0, fun _ _ _ => 0,
      fun _ _ _ => 0⟩) [[0]] none 1 1 (by decide) (by decide) (by decide)
    (by decide) (by decide) (by decide) (by decide)

end ClaimC3

section ClaimC9

variable {α : Type} [LinearOrderedField α]

theorem encLayersForward_false (ops : Ops α) (ηs ηs' : Nat → BlockNoise α)
    (mask : Option (N4 Bool)) (layers : List (EncoderBlock α)) (i : Nat)
    (x : T3 α) :
    encLayersForward ops false ηs mask layers i x =
      encLayersForward ops false ηs' mask layers i x := by
  induction layers generalizing i x with
  | nil => rfl
  | cons blk blks ih =>
    simp only [encLayersForward]
    have h1 : EncoderBlock.forward ops blk false (ηs i) x mask =
        EncoderBlock.forward ops blk false (ηs' i) x mask := rfl
    rw [h1, ih]

/-- C9: in evaluation mode the forward pass is deterministic — with
`training = false` every dropout site is the identity, so
`Transformer.encode` does not depend on the abstracted dropout randomness
at all: two runs with arbitrary (different) noise give identical outputs.
In particular (second conjunct, the spec's scenario with `d_model = 8`,
`h = 2`, `seq_len = 4`), the built model maps a batch-1 length-4 token
matrix to an output of shape `(1, 4, 8)`, identically on every run. -/
theorem encode_eval_mode_deterministic (ops : Ops α) :
    (∀ (t : Transformer α) (ηpos ηpos' : N3 α)
      (ηs ηs' : Nat → BlockNoise α) (src : List (List Nat))
      (mask : Option (N4 Bool)),
      Transformer.encode ops t false ηpos ηs src mask =
        Transformer.encode ops t false ηpos' ηs' src mask) ∧
    (∀ (g : Nat → Nat → α) (sv tv ts N dff : Nat) (ηpos : N3 α)
      (ηs : Nat → BlockNoise α) (src : List (List Nat))
      (mask : Option (N4 Bool)),
      IsTokMat src 1 4 → (∀ row ∈ src, ∀ tok ∈ row, tok < sv) →
      ∃ t y, build_transformer ops g sv tv 4 ts 8 N 2 dff = some t ∧
        Transformer.encode ops t false ηpos ηs src mask = some y ∧
        IsT3S y 1 4 8) := by
  constructor
  · intro t ηpos ηpos' ηs ηs' src mask
    unfold Transformer.encode
    have hpos : PositionalEncoding.forward t.src_pos false ηpos
        (InputEmbedding.forward ops t.src_embed src) =
          PositionalEncoding.forward t.src_pos false ηpos'
            (InputEmbedding.forward ops t.src_embed src) := rfl
    rw [hpos]
    have hfun : (fun y => (Encoder.forward ops t.encoder false ηs y mask).1)
        = (fun y => (Encoder.forward ops t.encoder false ηs' y mask).1) := by
      funext y
      simp only [Encoder.forward]
      rw [encLayersForward_false ops ηs ηs' mask t.encoder.layers 0 y]
    rw [hfun]
  · intro g sv tv ts N dff ηpos ηs src mask hsrc hids
    exact encode_shape_of_build ops g sv tv 4 ts 8 N 2 dff false ηpos ηs src
      mask 1 4 (by omega) (by omega) (by omega) hsrc (by omega) (by omega)
      hids

/-- Witness for `encode_eval_mode_deterministic` at concrete inputs and
two different noise sources. -/
theorem encode_eval_mode_deterministic_witness :
    (Transformer.encode ratOps
        (⟨⟨[], mkLayerNorm⟩, ⟨[], mkLayerNorm⟩, ⟨1, [[1]]⟩, ⟨1, [[1]]⟩,
          ⟨[[0]]⟩, ⟨[[0]]⟩, ⟨⟨[[1]], [0]⟩⟩⟩ : Transformer ℚ) false
        (fun _ _ _ => 1) (fun _ => ⟨fun _ _ _ _ => 1, fun _ _ _ => 1,
          fun _ _ _ => 1, fun _ _ _ => 1⟩) [[0]] none =
      Transformer.encode ratOps
        (⟨⟨[], mkLayerNorm⟩, ⟨[], mkLayerNorm⟩, ⟨1, [[1]]⟩, ⟨1, [[1]]⟩,
          ⟨[[0]]⟩, ⟨[[0]]⟩, ⟨⟨[[1]], [0]⟩⟩⟩ : Transformer ℚ) false
        (fun _ _ _ => 2) (fun _ => ⟨fun _ _ _ _ => 2, fun _ _ _ => 2,
          fun _ _ _ => 2, fun _ _ _ => 2⟩) [[0]] none) ∧
    (∃ t y, build_transformer ratOps (fun _ _ => (0 : ℚ)) 1 1 4 1 8 1 2 1 =
        some t ∧
      Transformer.encode ratOps t false (fun _ _ _ => 0)
        (fun _ => ⟨fun _ _ _ _ => 0, fun _ _ _ => 0, fun _ _ _ => 0,
          fun _ _ _ => 0⟩) [[0, 0, 0, 0]] none = some y ∧
      IsT3S y 1 4 8) :=
  ⟨(encode_eval_mode_deterministic ratOps).1 _ _ _ _ _ [[0]] none,
    (encode_eval_mode_deterministic ratOps).2 (fun _ _ => (0 : ℚ)) 1 1 1 1 1
      (fun _ _ _ => 0) (fun _ => ⟨fun _ _ _ _ => 0, fun _ _ _ => 0,
        fun _ _ _ => 0, fun _ _ _ => 0⟩) [[0, 0, 0, 0]] none (by decide)
      (by decide)⟩

end ClaimC9
